import Mathlib

/-!
# PortaPack spectrum widget (`firmware/application/ui_spectrum.cpp`)

A shallow embedding of the frequency scale, the waterfall view and the
waterfall widget, and the properties of the specification proved on it.

Conventions of the embedding.

* `uint32_t` and `size_t` (32 bit on the Cortex-M target) are natural numbers,
  every operation that can wrap is reduced modulo `2 ^ 32` (`u32`).
* `int` arithmetic on coordinates is integer arithmetic; a value that is stored
  in a `Coord` or a `Dim` is narrowed by `toCoord`.
* `float` is IEEE binary32 with round-to-nearest-even.  All the values the code
  computes are zero or lie in `[1/4, 2 ^ 32]`, so a float is represented exactly
  by the natural number `x * 2 ^ 25` (`f32_round` rounds a quotient to 24
  significant bits).
* A painter is the list of the drawing operations it received, in order.
* A loop whose termination is not structural takes fuel; a division by zero and
  an exhausted fuel are faults.
-/

set_option maxRecDepth 8192

namespace Spectrum

/-! ## Types of the UI library -/

/-- Modelled from the spec: `ui::Color` is declared in `ui.hpp`, which is not
among the sources; a colour is taken as its red, green and blue components. -/
structure Color where
  r : Nat
  g : Nat
  b : Nat
deriving DecidableEq

/-- Modelled from the spec: `Color::black()` of `ui.hpp`, the background colour. -/
def Color.black : Color := ⟨0, 0, 0⟩

/-- Modelled from the spec: `Color::white()` of `ui.hpp`, the colour of the ticks. -/
def Color.white : Color := ⟨255, 255, 255⟩

/-- Modelled from the spec: `Color::yellow()` of `ui.hpp`, the colour of the stop bands. -/
def Color.yellow : Color := ⟨255, 255, 0⟩

/-- Modelled from the spec: `Color::green()` of `ui.hpp`, the colour of the pass band. -/
def Color.green : Color := ⟨0, 255, 0⟩

/-- Modelled from the spec: `Coord` and `Dim` are declared in `ui.hpp`, which is
not among the sources; they are taken as 16 bit signed integers, and `toCoord`
is the narrowing of an integer to them (two's complement, as the target does).
The theorems that depend on the width are stated for values that fit 16 bits,
where every wider signed type gives the same result. -/
def toCoord (x : Int) : Int := (x + 32768) % 65536 - 32768

/-- The values a `Coord` or a `Dim` holds without change. -/
def inCoord (x : Int) : Prop := -32768 ≤ x ∧ x < 32768

instance (x : Int) : Decidable (inCoord x) := by
  unfold inCoord
  exact inferInstance

/-- Modelled from the spec: `ui::Point` of `ui.hpp` (not among the sources). -/
structure Point where
  x : Int
  y : Int
deriving DecidableEq

/-- Modelled from the spec: `ui::Rect` of `ui.hpp` (not among the sources):
a position and a size. -/
structure Rect where
  x : Int
  y : Int
  w : Int
  h : Int
deriving DecidableEq

/-- Modelled from the spec: `Rect::left()` of `ui.hpp`. -/
def Rect.left (r : Rect) : Int := r.x

/-- Modelled from the spec: `Rect::top()` of `ui.hpp`. -/
def Rect.top (r : Rect) : Int := r.y

/-- Modelled from the spec: `Rect::width()` of `ui.hpp`. -/
def Rect.width (r : Rect) : Int := r.w

/-- Modelled from the spec: `Rect::height()` of `ui.hpp`. -/
def Rect.height (r : Rect) : Int := r.h

/-- Modelled from the spec: `Rect::bottom()` of `ui.hpp`, the top plus the height. -/
def Rect.bottom (r : Rect) : Int := r.y + r.h

/-- Modelled from the spec: `Rect::right()` of `ui.hpp`, the left plus the width. -/
def Rect.right (r : Rect) : Int := r.x + r.w

/-- Modelled from the spec: the constructor `Rect { x, y, w, h }` of `ui.hpp`;
each argument is narrowed to the type of its field. -/
def Rect.make (x y w h : Int) : Rect := ⟨toCoord x, toCoord y, toCoord w, toCoord h⟩

/-- Modelled from the spec: the constructor `Point { x, y }` of `ui.hpp`; each
argument is narrowed to a `Coord`. -/
def Point.make (x y : Int) : Point := ⟨toCoord x, toCoord y⟩

/-- Conversion of an integer to `uint32_t`. -/
def u32 (x : Int) : Int := x % 4294967296

/-- What a `Painter` or the display is asked to draw. -/
inductive DrawOp where
  | fill_rectangle (r : Rect) (c : Color)
  | draw_string (p : Point) (text : String)
  | scroll (n : Int)
  | draw_pixels (r : Rect) (colors : List Color)
deriving DecidableEq

/-- The ways an execution can go wrong. -/
inductive Fault where
  | div_by_zero
  | out_of_fuel
deriving DecidableEq

deriving instance DecidableEq for Except

/-! ## WaterfallView -/

/-- Modelled from the spec: `ChannelSpectrum` of `message.hpp` (not among the
sources): 256 power bins of one byte each, the sampling rate and the two
filter frequencies. -/
structure ChannelSpectrum where
  db : List Nat
  sampling_rate : Nat
  channel_filter_pass_frequency : Nat
  channel_filter_stop_frequency : Nat
deriving DecidableEq

/-- The values of the C++ type: 256 bytes and three `uint32_t`. -/
def ChannelSpectrum.wf (s : ChannelSpectrum) : Prop :=
  s.db.length = 256 ∧ (∀ b ∈ s.db, b < 256) ∧ s.sampling_rate < 2 ^ 32 ∧
  s.channel_filter_pass_frequency < 2 ^ 32 ∧ s.channel_filter_stop_frequency < 2 ^ 32

/-- The expression `spectrum_rgb3_lut[spectrum.db[k]]`, with both array
accesses checked. -/
def lut_of_bin (lut : List Color) (db : List Nat) (k : Nat) : Option Color :=
  db[k]? >>= fun b => lut[b]?

/-- The assignment `pixel_row[i] = c`, checked. -/
def store (row : List Color) (i : Nat) (c : Color) : Option (List Color) :=
  if i < row.length then some (row.set i c) else none

/-- The loop `for(size_t i = i0; i < i0 + n; i++) pixel_row[i] = lut[db[src i]]`. -/
def row_loop (lut : List Color) (db : List Nat) (src : Nat → Nat) :
    Nat → Nat → List Color → Option (List Color)
  | 0, _, row => some row
  | n + 1, i, row =>
    match lut_of_bin lut db (src i) with
    | none => none
    | some c =>
      match store row i c with
      | none => none
      | some row1 => row_loop lut db src n (i + 1) row1

/-- Lines 201-210 of `WaterfallView::on_channel_spectrum`: the pixel row.
`uninit` is the content of the 240 entries of `pixel_row` before the loops. -/
def build_pixel_row (lut : List Color) (spectrum : ChannelSpectrum)
    (uninit : Nat → Color) : Option (List Color) :=
  let pixel_row := (List.range 240).map uninit
  match row_loop lut spectrum.db (fun i => 256 - 120 + i) 120 0 pixel_row with
  | none => none
  | some row1 => row_loop lut spectrum.db (fun i => i - 120) 120 120 row1

/-- `WaterfallView::on_channel_spectrum`.  `lut` is `spectrum_rgb3_lut`
(`spectrum_color_lut.hpp`, not among the sources), `draw_y` is what
`display.scroll(1)` returns. -/
def WaterfallView.on_channel_spectrum (lut : List Color) (spectrum : ChannelSpectrum)
    (uninit : Nat → Color) (draw_y : Int) : Option (List DrawOp) :=
  match build_pixel_row lut spectrum uninit with
  | none => none
  | some pixel_row =>
    some [DrawOp.scroll 1,
          DrawOp.draw_pixels (Rect.make 0 draw_y pixel_row.length 1) pixel_row]

/-! ## Binary32 arithmetic -/

/-- The float `1.0f` in units of `2 ^ -25`. -/
def F32_ONE : Nat := 2 ^ 25

/-- Position of the leading bit of `n` (0 for `n < 2`), by halving. -/
def ilog2 : Nat → Nat → Nat
  | 0, _ => 0
  | fuel + 1, n => if n < 2 then 0 else ilog2 fuel (n / 2) + 1

/-- The quotient `a / b` rounded to the nearest integer, ties to even. -/
def rne (a b : Nat) : Nat :=
  if 2 * (a % b) < b then a / b
  else if b < 2 * (a % b) then a / b + 1
  else if (a / b) % 2 = 0 then a / b else a / b + 1

/-- The spacing of the binary32 numbers around `a / b` (in units of `2 ^ -25`):
24 significant bits. -/
def f32_ulp (a b : Nat) : Nat := 2 ^ (ilog2 (a / b) (a / b) - 23)

/-- The quotient `a / b` (in units of `2 ^ -25`) rounded to binary32,
round-to-nearest-even; exact for a quotient that is zero or at least `1/4`. -/
def f32_round (a b : Nat) : Nat := f32_ulp a b * rne a (b * f32_ulp a b)

/-- The conversion `float(n)` of a `uint32_t`. -/
def f32_of_u32 (n : Nat) : Nat := f32_round (n * F32_ONE) 1

/-- The float division `x / d` by the small integer `d`. -/
def f32_div (x d : Nat) : Nat := f32_round x d

/-- The conversion to `size_t` of `std::ceil(x)`. -/
def f32_ceil (x : Nat) : Nat := ((x + (F32_ONE - 1)) / F32_ONE) % 2 ^ 32

/-! ## FrequencyScale -/

/-- The state of a `FrequencyScale`.  `spectrum_bins` and `filter_band_height`
are constants of the class declared in `ui_spectrum.hpp`, which is not among
the sources; `dirty` counts the calls of `set_dirty()`. -/
structure FrequencyScale where
  spectrum_sampling_rate : Nat
  spectrum_bins : Nat
  channel_filter_pass_frequency : Nat
  channel_filter_stop_frequency : Nat
  filter_band_height : Int
  dirty : Nat
deriving DecidableEq

def FrequencyScale.set_dirty (fs : FrequencyScale) : FrequencyScale :=
  { fs with dirty := fs.dirty + 1 }

def FrequencyScale.set_spectrum_sampling_rate (fs : FrequencyScale)
    (new_sampling_rate : Nat) : FrequencyScale :=
  if fs.spectrum_sampling_rate ≠ new_sampling_rate then
    ({ fs with spectrum_sampling_rate := new_sampling_rate }).set_dirty
  else fs

def FrequencyScale.set_channel_filter (fs : FrequencyScale)
    (pass_frequency stop_frequency : Nat) : FrequencyScale :=
  if fs.channel_filter_pass_frequency ≠ pass_frequency ∨
      fs.channel_filter_stop_frequency ≠ stop_frequency then
    ({ fs with channel_filter_pass_frequency := pass_frequency,
               channel_filter_stop_frequency := stop_frequency }).set_dirty
  else fs

def FrequencyScale.clear (fs : FrequencyScale) : FrequencyScale :=
  ({ fs with spectrum_sampling_rate := 0 }).set_dirty

def FrequencyScale.on_show (fs : FrequencyScale) : FrequencyScale := fs.clear

/-- Division of two `uint32_t`. -/
def udiv32 (a b : Nat) : Except Fault Nat :=
  if b = 0 then Except.error Fault.div_by_zero else Except.ok (a / b)

def FrequencyScale.clear_background (r : Rect) : List DrawOp :=
  [DrawOp.fill_rectangle r Color.black]

/-- Modelled from the spec: `to_string_dec_uint` of `string_format.hpp` (not
among the sources): the decimal digits of the number. -/
def to_string_dec_uint (n : Nat) : String := Nat.repr n

/-- Lines 109-115: the label of the tick at `tick_offset`. -/
def tick_label (magnitude_n tick_offset : Nat) : String :=
  let zero_pad :=
    if magnitude_n % 3 = 0 then "" else
    if magnitude_n % 3 = 1 then "0" else "00"
  let unit :=
    if magnitude_n ≥ 6 then "M" else
    if magnitude_n ≥ 3 then "k" else ""
  to_string_dec_uint tick_offset ++ zero_pad ++ unit

/-- Line 107: `tick_offset * magnitude * spectrum_bins / spectrum_sampling_rate`
in 32 bit unsigned arithmetic, narrowed to `Dim`. -/
def FrequencyScale.pixel_offset (fs : FrequencyScale) (magnitude tick_offset : Nat) :
    Except Fault Int :=
  match udiv32 (((tick_offset * magnitude) % 2 ^ 32 * fs.spectrum_bins) % 2 ^ 32)
      fs.spectrum_sampling_rate with
  | Except.error e => Except.error e
  | Except.ok q => Except.ok (toCoord q)

/-- Lines 107-125: the body of the tick loop. -/
def FrequencyScale.tick_body (fs : FrequencyScale) (r : Rect)
    (magnitude magnitude_n tick_offset : Nat) : Except Fault (List DrawOp) :=
  let x_center := r.width.tdiv 2
  match fs.pixel_offset magnitude tick_offset with
  | Except.error e => Except.error e
  | Except.ok pixel_offset =>
    let label := tick_label magnitude_n tick_offset
    let offset_low := toCoord (r.left + x_center - pixel_offset)
    let tick_low := Rect.make offset_low r.top 1 r.height
    let offset_high := toCoord (r.left + x_center + pixel_offset)
    let tick_high := Rect.make offset_high r.top 1 r.height
    Except.ok [
      DrawOp.fill_rectangle tick_low Color.white,
      DrawOp.draw_string (Point.make (offset_low + 2) r.top) label,
      DrawOp.fill_rectangle tick_high Color.white,
      DrawOp.draw_string (Point.make (offset_high + 2) r.top) label]

/-- Lines 98-102: the normalisation loop on `rough_tick_interval`, `magnitude`
and `magnitude_n`. -/
def normalise_loop : Nat → Nat → Nat → Nat → Except Fault (Nat × Nat × Nat)
  | 0, _, _, _ => Except.error Fault.out_of_fuel
  | fuel + 1, rough_tick_interval, magnitude, magnitude_n =>
    if 10 * F32_ONE ≤ rough_tick_interval then
      normalise_loop fuel (f32_div rough_tick_interval 10)
        ((magnitude * 10) % 2 ^ 32) ((magnitude_n + 1) % 2 ^ 32)
    else Except.ok (rough_tick_interval, magnitude, magnitude_n)

/-- Lines 94-103: rough interval, magnitude and magnitude counter of a
sampling rate. -/
def normalise (fuel sampling_rate : Nat) : Except Fault (Nat × Nat × Nat) :=
  normalise_loop fuel (f32_div (f32_of_u32 sampling_rate) 4) 1 0

/-- Lines 106-128: the tick loop, from `tick_offset` on. -/
def FrequencyScale.tick_loop (fs : FrequencyScale) (r : Rect)
    (tick_interval magnitude magnitude_n : Nat) : Nat → Nat → Except Fault (List DrawOp)
  | 0, _ => Except.error Fault.out_of_fuel
  | fuel + 1, tick_offset =>
    if (tick_offset * magnitude) % 2 ^ 32 < fs.spectrum_sampling_rate / 2 then
      match fs.tick_body r magnitude magnitude_n tick_offset with
      | Except.error e => Except.error e
      | Except.ok ops =>
        match tick_loop fs r tick_interval magnitude magnitude_n fuel
            ((tick_offset + tick_interval) % 2 ^ 32) with
        | Except.error e => Except.error e
        | Except.ok rest => Except.ok (ops ++ rest)
    else Except.ok []

/-- The centre tick of lines 89-92. -/
def center_tick (r : Rect) : DrawOp :=
  DrawOp.fill_rectangle (Rect.make (r.left + r.width.tdiv 2) r.top 1 r.height) Color.white

/-- `FrequencyScale::draw_frequency_ticks`. -/
def FrequencyScale.draw_frequency_ticks (fuel : Nat) (fs : FrequencyScale) (r : Rect) :
    Except Fault (List DrawOp) :=
  match normalise fuel fs.spectrum_sampling_rate with
  | Except.error e => Except.error e
  | Except.ok (rough_tick_interval, magnitude, magnitude_n) =>
    let tick_interval := f32_ceil rough_tick_interval
    match fs.tick_loop r tick_interval magnitude magnitude_n fuel tick_interval with
    | Except.error e => Except.error e
    | Except.ok ticks => Except.ok (center_tick r :: ticks)

/-- Lines 135-136: `frequency * spectrum_bins / spectrum_sampling_rate` in
32 bit unsigned arithmetic. -/
def FrequencyScale.filter_offset (fs : FrequencyScale) (frequency : Nat) : Except Fault Nat :=
  udiv32 ((frequency * fs.spectrum_bins) % 2 ^ 32) fs.spectrum_sampling_rate

/-- `FrequencyScale::draw_filter_ranges`. -/
def FrequencyScale.draw_filter_ranges (fs : FrequencyScale) (r : Rect) :
    Except Fault (List DrawOp) :=
  if fs.channel_filter_pass_frequency ≠ 0 then
    let x_center := r.width.tdiv 2
    match fs.filter_offset fs.channel_filter_pass_frequency with
    | Except.error e => Except.error e
    | Except.ok pass_offset =>
      match fs.filter_offset fs.channel_filter_stop_frequency with
      | Except.error e => Except.error e
      | Except.ok stop_offset =>
        let pass_x_lo := u32 (x_center - pass_offset)
        let pass_x_hi := u32 (x_center + pass_offset)
        let stop_bands :=
          if fs.channel_filter_stop_frequency ≠ 0 then
            let stop_x_lo := u32 (x_center - stop_offset)
            let stop_x_hi := u32 (x_center + stop_offset)
            let r_stop_lo := Rect.make (u32 (r.left + stop_x_lo))
              (r.bottom - fs.filter_band_height)
              (u32 (pass_x_lo - stop_x_lo)) fs.filter_band_height
            let r_stop_hi := Rect.make (u32 (r.left + pass_x_hi))
              (r.bottom - fs.filter_band_height)
              (u32 (stop_x_hi - pass_x_hi)) fs.filter_band_height
            [DrawOp.fill_rectangle r_stop_lo Color.yellow,
             DrawOp.fill_rectangle r_stop_hi Color.yellow]
          else []
        let r_pass := Rect.make (u32 (r.left + pass_x_lo))
          (r.bottom - fs.filter_band_height)
          (u32 (pass_x_hi - pass_x_lo)) fs.filter_band_height
        Except.ok (stop_bands ++ [DrawOp.fill_rectangle r_pass Color.green])
  else Except.ok []

/-- `FrequencyScale::paint`; `r` is `screen_rect()`. -/
def FrequencyScale.paint (fuel : Nat) (fs : FrequencyScale) (r : Rect) :
    Except Fault (List DrawOp) :=
  let background := FrequencyScale.clear_background r
  if fs.spectrum_sampling_rate = 0 then
    Except.ok background
  else
    match fs.draw_filter_ranges r with
    | Except.error e => Except.error e
    | Except.ok bands =>
      match fs.draw_frequency_ticks fuel r with
      | Except.error e => Except.error e
      | Except.ok ticks => Except.ok (background ++ bands ++ ticks)

/-- An upper bound of `rough_tick_interval` after `k` divisions by ten: the
`k`-th iterate of the float division on `2 ^ 30`, the quarter of `2 ^ 32`. -/
def rough_bound : Nat → Nat
  | 0 => 2 ^ 30 * F32_ONE
  | k + 1 => f32_div (rough_bound k) 10

/-- The four drawing operations of a tick pair at the pixel offset `p` from the
centre `r.left + r.width / 2`, with the label `label`: the low line and its
label, then the high line and its label. -/
def tick_pair (r : Rect) (p : Int) (label : String) : List DrawOp :=
  [DrawOp.fill_rectangle (Rect.make (r.left + r.width.tdiv 2 - p) r.top 1 r.height) Color.white,
   DrawOp.draw_string (Point.make (r.left + r.width.tdiv 2 - p + 2) r.top) label,
   DrawOp.fill_rectangle (Rect.make (r.left + r.width.tdiv 2 + p) r.top 1 r.height) Color.white,
   DrawOp.draw_string (Point.make (r.left + r.width.tdiv 2 + p + 2) r.top) label]

/-- The pixel offset of the tick at `tick_offset`, when the product
`tick_offset * magnitude` does not wrap. -/
def tick_pixels (fs : FrequencyScale) (magnitude tick_offset : Nat) : Int :=
  toCoord (((tick_offset * magnitude * fs.spectrum_bins) % 2 ^ 32 /
    fs.spectrum_sampling_rate : Nat) : Int)

/-- The label in the words of the specification: the decimal digits of
`tick_offset`, then `m mod 3` zeros, then the unit. -/
def label_of_words (m tick_offset : Nat) : String :=
  Nat.repr tick_offset ++ String.mk (List.replicate (m % 3) '0') ++
    (if 6 ≤ m then "M" else if 3 ≤ m ∧ m < 6 then "k" else "")

/-! ## WaterfallWidget -/

/-- The pixels of a rectangle: the points from its left and top edge up to,
not including, its right and bottom edge. -/
def Rect.contains (r : Rect) (x y : Int) : Prop :=
  r.left ≤ x ∧ x < r.right ∧ r.top ≤ y ∧ y < r.bottom

/-- What the waterfall view needs of its surroundings: the colour table
`spectrum_rgb3_lut`, the content of `pixel_row` before it is filled, and the
answer of `display.scroll(1)` given what the display has received so far. -/
structure Surroundings where
  lut : List Color
  uninit : Nat → Color
  scroll_y : List DrawOp → Int

/-- The state of a `WaterfallWidget`: the FIFO pointer (`none` is the null
pointer) with the frames the FIFO holds, the frequency scale, what the
waterfall view has sent to the display, and the rectangles of the widget and
of its two children. -/
structure WaterfallWidget where
  fifo : Option (List ChannelSpectrum)
  frequency_scale : FrequencyScale
  display : List DrawOp
  parent_rect : Rect
  frequency_scale_rect : Rect
  waterfall_view_rect : Rect

/-- The ways the frame handler can go wrong. -/
inductive WidgetFault where
  | out_of_bounds
  | out_of_fuel
deriving DecidableEq

/-- Modelled from the spec: `FIFO::out` of `fifo.hpp` (not among the sources),
the non-blocking "try pop one frame": the oldest frame and the rest, or nothing
when the FIFO is empty. -/
def fifo_out (q : List ChannelSpectrum) : Option (ChannelSpectrum × List ChannelSpectrum) :=
  match q with
  | [] => none
  | frame :: rest => some (frame, rest)

/-- `WaterfallWidget::on_channel_spectrum`: the frame goes to the waterfall
view, then its sampling rate and its filter frequencies go to the frequency
scale. -/
def WaterfallWidget.on_channel_spectrum (env : Surroundings) (w : WaterfallWidget)
    (spectrum : ChannelSpectrum) : Except WidgetFault WaterfallWidget :=
  match WaterfallView.on_channel_spectrum env.lut spectrum env.uninit
      (env.scroll_y w.display) with
  | none => Except.error WidgetFault.out_of_bounds
  | some ops =>
    Except.ok { w with
      display := w.display ++ ops,
      frequency_scale :=
        (w.frequency_scale.set_spectrum_sampling_rate spectrum.sampling_rate).set_channel_filter
          spectrum.channel_filter_pass_frequency spectrum.channel_filter_stop_frequency }

/-- Lines 246-249: the loop `while( fifo->out(channel_spectrum) )` of the
frame-sync handler, on the frames `q` of the FIFO. -/
def WaterfallWidget.drain (env : Surroundings) :
    Nat → WaterfallWidget → List ChannelSpectrum → Except WidgetFault WaterfallWidget
  | 0, _, _ => Except.error WidgetFault.out_of_fuel
  | fuel + 1, w, q =>
    match fifo_out q with
    | none => Except.ok { w with fifo := some q }
    | some (channel_spectrum, rest) =>
      match ({ w with fifo := some rest }).on_channel_spectrum env channel_spectrum with
      | Except.error e => Except.error e
      | Except.ok w1 => drain env fuel w1 rest

/-- Lines 243-252: the handler of `DisplayFrameSync` registered by
`WaterfallWidget::on_show`. -/
def WaterfallWidget.on_display_frame_sync (env : Surroundings) (fuel : Nat)
    (w : WaterfallWidget) : Except WidgetFault WaterfallWidget :=
  match w.fifo with
  | none => Except.ok w
  | some q => WaterfallWidget.drain env fuel w q

/-- Lines 237-242: the handler of `ChannelSpectrumConfig` registered by
`WaterfallWidget::on_show`. -/
def WaterfallWidget.on_channel_spectrum_config (w : WaterfallWidget)
    (fifo : Option (List ChannelSpectrum)) : WaterfallWidget :=
  { w with fifo := fifo }

/-- `WaterfallWidget::set_parent_rect`. -/
def WaterfallWidget.set_parent_rect (w : WaterfallWidget) (new_parent_rect : Rect) :
    WaterfallWidget :=
  let scale_height : Int := 20
  { w with
    parent_rect := new_parent_rect,
    frequency_scale_rect := Rect.make 0 0 new_parent_rect.width scale_height,
    waterfall_view_rect := Rect.make 0 scale_height new_parent_rect.width
      (new_parent_rect.height - scale_height) }

/-- The pixel row of a drawing operation, if it draws one. -/
def pixels_of (op : DrawOp) : Option (List Color) :=
  match op with
  | DrawOp.draw_pixels _ colors => some colors
  | _ => none

/-! ## The array accesses of the waterfall view -/

/-- The array accesses of the loop
`for(size_t i = i0; i < i0 + n; i++) pixel_row[i] = lut[db[src i]]`, in order:
for each iteration the index of `pixel_row` written and the index of `db` read. -/
def row_accesses (src : Nat → Nat) : Nat → Nat → List (Nat × Nat)
  | 0, _ => []
  | n + 1, i => (i, src i) :: row_accesses src n (i + 1)

/-- The array accesses of the two loops of `WaterfallView::on_channel_spectrum`. -/
def pixel_row_accesses : List (Nat × Nat) :=
  row_accesses (fun i => 256 - 120 + i) 120 0 ++ row_accesses (fun i => i - 120) 120 120

/-- One access carried out: the colour of the bin read is stored at the index
written, both checked. -/
def perform (lut : List Color) (db : List Nat) (row : List Color) (a : Nat × Nat) :
    Option (List Color) :=
  match lut_of_bin lut db a.2 with
  | none => none
  | some c => store row a.1 c

/-! ## Counting what is drawn -/

/-- Whether a drawing operation is a line or band, that is a filled rectangle. -/
def is_line (op : DrawOp) : Bool :=
  match op with
  | DrawOp.fill_rectangle _ _ => true
  | _ => false

/-! ## Reading a label -/

/-- The number a character stands for as a decimal digit. -/
def digit_value (c : Char) : Nat := c.toNat - 48

/-- The number a sequence of decimal digits denotes. -/
def digits_value (cs : List Char) : Nat :=
  cs.foldl (fun acc c => acc * 10 + digit_value c) 0

/-- A label read as a decimal number, with `k` for `10 ^ 3` and `M` for
`10 ^ 6` as its last character. -/
def label_value (label : String) : Nat :=
  if label.data.getLast? = some 'M' then digits_value label.data.dropLast * 10 ^ 6
  else if label.data.getLast? = some 'k' then digits_value label.data.dropLast * 10 ^ 3
  else digits_value label.data

/-- An upper bound of `rough_tick_interval` after `k` divisions by ten, from the
bound `b` of its first value. -/
def rough_bound_from (b : Nat) : Nat → Nat
  | 0 => b
  | k + 1 => f32_div (rough_bound_from b k) 10

/-! ## Concrete inputs -/

/-- The colour table in which byte `k` has the colour `(k, 0, 0)`. -/
def ramp_lut : List Color := (List.range 256).map (fun k => Color.mk k 0 0)

/-- The bins `0, 1, ..., 255`. -/
def ramp_db : List Nat := List.range 256

/-- The frame whose bin `k` holds the byte `k`. -/
def ramp_frame : ChannelSpectrum := ⟨ramp_db, 1000000, 0, 0⟩

/-- A scale rectangle of the full screen width. -/
def demo_rect : Rect := ⟨0, 0, 240, 20⟩

/-- A frequency scale at 20 kHz, no filter. -/
def scale_20k : FrequencyScale := ⟨20000, 256, 0, 0, 4, 0⟩

/-- A frequency scale at 1 MHz, no filter. -/
def scale_1M : FrequencyScale := ⟨1000000, 256, 0, 0, 4, 0⟩

/-- A frequency scale at 8 MHz with a 1 MHz pass band and a 2 MHz stop band. -/
def scale_8M : FrequencyScale := ⟨8000000, 256, 1000000, 2000000, 4, 0⟩

/-- A frequency scale at 20 MHz with a pass frequency of 17 MHz. -/
def scale_wide : FrequencyScale := ⟨20000000, 256, 17000000, 0, 4, 0⟩

/-- A frequency scale without a sampling rate, the filter frequencies set. -/
def scale_zero : FrequencyScale := ⟨0, 256, 1000000, 2000000, 4, 0⟩

/-- A frequency scale at 20 kHz that has been marked dirty three times. -/
def scale_dirty : FrequencyScale := ⟨20000, 256, 0, 0, 4, 3⟩

/-- The surroundings with the ramp colour table, a black fresh row and a
display that always answers 7. -/
def demo_env : Surroundings := ⟨ramp_lut, fun _ => Color.black, fun _ => 7⟩

/-- A widget of 240 by 320 pixels without a FIFO. -/
def demo_widget : WaterfallWidget :=
  ⟨none, scale_zero, [], ⟨0, 0, 240, 320⟩, ⟨0, 0, 0, 0⟩, ⟨0, 0, 0, 0⟩⟩

/-- A second frame, all bins zero, at 8 MHz with a filter. -/
def flat_frame : ChannelSpectrum := ⟨List.replicate 256 0, 8000000, 1000000, 2000000⟩

/-- A frequency scale at 41 Hz. -/
def scale_41 : FrequencyScale := ⟨41, 256, 0, 0, 4, 0⟩

/-- A frequency scale at 40,000,002 Hz. -/
def scale_40M : FrequencyScale := ⟨40000002, 256, 0, 0, 4, 0⟩

/-- A frequency scale at 3,999,999,872 Hz, the least rate that binary32 rounds
to 4,000,000,000. -/
def scale_4G : FrequencyScale := ⟨3999999872, 256, 0, 0, 4, 0⟩

/-! ## Lemmas on binary32 rounding -/

theorem ilog2_spec : ∀ (fuel n : Nat), n ≤ fuel → n ≠ 0 →
    2 ^ ilog2 fuel n ≤ n ∧ n < 2 ^ (ilog2 fuel n + 1) := by
  intro fuel
  induction fuel with
  | zero =>
    intro n h0 h1
    omega
  | succ fuel ih =>
    intro n hle hne
    unfold ilog2
    by_cases h2 : n < 2
    · rw [if_pos h2]
      constructor
      · simp
        omega
      · simpa using h2
    · rw [if_neg h2]
      have hhalf := ih (n / 2) (by omega) (by omega)
      obtain ⟨h3, h4⟩ := hhalf
      constructor
      · rw [pow_succ]
        omega
      · rw [pow_succ]
        omega

theorem ilog2_zero : ilog2 0 0 = 0 := rfl

theorem ilog2_mono {a b : Nat} (h : a ≤ b) : ilog2 a a ≤ ilog2 b b := by
  by_cases ha : a = 0
  · subst ha
    simp [ilog2_zero]
  · have hb : b ≠ 0 := by omega
    obtain ⟨h1, _⟩ := ilog2_spec a a (le_refl a) ha
    obtain ⟨_, h4⟩ := ilog2_spec b b (le_refl b) hb
    by_contra hlt
    have h5 : ilog2 b b + 1 ≤ ilog2 a a := by omega
    have h6 : 2 ^ (ilog2 b b + 1) ≤ 2 ^ ilog2 a a := Nat.pow_le_pow_right (by omega) h5
    omega

theorem rne_ge (a b : Nat) : a / b ≤ rne a b := by
  unfold rne
  split_ifs <;> omega

theorem rne_le (a b : Nat) : rne a b ≤ a / b + 1 := by
  unfold rne
  split_ifs <;> omega

theorem rne_mono (b : Nat) {a a' : Nat} (h : a ≤ a') : rne a b ≤ rne a' b := by
  have hq : a / b ≤ a' / b := Nat.div_le_div_right h
  rcases Nat.lt_or_ge (a / b) (a' / b) with hlt | hge
  · calc rne a b ≤ a / b + 1 := rne_le a b
      _ ≤ a' / b := hlt
      _ ≤ rne a' b := rne_ge a' b
  · have heq : a / b = a' / b := by omega
    have h1 := Nat.div_add_mod a b
    have h2 := Nat.div_add_mod a' b
    rw [heq] at h1
    have hr : a % b ≤ a' % b := by omega
    unfold rne
    rw [heq]
    split_ifs <;> omega

theorem ulp_block (n e k : Nat) (hn : n < 2 ^ (e + 1)) (hk : k ≤ e + 1) :
    2 ^ k * (n / 2 ^ k + 1) ≤ 2 ^ (e + 1) := by
  have hsplit : 2 ^ (e + 1) = 2 ^ (e + 1 - k) * 2 ^ k := by
    rw [← pow_add]
    congr 1
    omega
  have hlt : n / 2 ^ k < 2 ^ (e + 1 - k) := by
    rw [Nat.div_lt_iff_lt_mul (Nat.pow_pos (by omega))]
    rw [← hsplit]
    exact hn
  calc 2 ^ k * (n / 2 ^ k + 1) ≤ 2 ^ k * 2 ^ (e + 1 - k) := Nat.mul_le_mul_left _ hlt
    _ = 2 ^ (e + 1) := by rw [hsplit, Nat.mul_comm]

theorem f32_round_mono (b : Nat) {a a' : Nat} (h : a ≤ a') :
    f32_round a b ≤ f32_round a' b := by
  have hn : a / b ≤ a' / b := Nat.div_le_div_right h
  have he : ilog2 (a / b) (a / b) ≤ ilog2 (a' / b) (a' / b) := ilog2_mono hn
  unfold f32_round f32_ulp
  generalize hE : ilog2 (a / b) (a / b) = e at he
  generalize hE' : ilog2 (a' / b) (a' / b) = e' at he
  rcases Nat.lt_or_ge (e - 23) (e' - 23) with hlt | hge
  · -- the binade changes: a power of two lies between the two results
    have hn' : a' / b ≠ 0 := by
      intro h0
      rw [h0, ilog2_zero] at hE'
      omega
    have hlow : 2 ^ e' ≤ a' / b := by
      have := (ilog2_spec (a' / b) (a' / b) (le_refl _) hn').1
      rwa [hE'] at this
    have hup : a / b < 2 ^ (e + 1) := by
      by_cases h0 : a / b = 0
      · rw [h0]
        exact Nat.pow_pos (by omega)
      · have := (ilog2_spec (a / b) (a / b) (le_refl _) h0).2
        rwa [hE] at this
    have hleft : 2 ^ (e - 23) * rne a (b * 2 ^ (e - 23)) ≤ 2 ^ (e + 1) := by
      have h1 : rne a (b * 2 ^ (e - 23)) ≤ (a / b) / 2 ^ (e - 23) + 1 := by
        rw [Nat.div_div_eq_div_mul]
        exact rne_le _ _
      calc 2 ^ (e - 23) * rne a (b * 2 ^ (e - 23))
          ≤ 2 ^ (e - 23) * ((a / b) / 2 ^ (e - 23) + 1) := Nat.mul_le_mul_left _ h1
        _ ≤ 2 ^ (e + 1) := ulp_block _ _ _ hup (by omega)
    have hright : 2 ^ e' ≤ 2 ^ (e' - 23) * rne a' (b * 2 ^ (e' - 23)) := by
      have h1 : (a' / b) / 2 ^ (e' - 23) ≤ rne a' (b * 2 ^ (e' - 23)) := by
        rw [Nat.div_div_eq_div_mul]
        exact rne_ge _ _
      have hsplit : 2 ^ e' = 2 ^ 23 * 2 ^ (e' - 23) := by
        rw [← pow_add]
        congr 1
        omega
      have h2 : 2 ^ 23 ≤ (a' / b) / 2 ^ (e' - 23) := by
        rw [Nat.le_div_iff_mul_le (Nat.pow_pos (by omega)), ← hsplit]
        exact hlow
      calc 2 ^ e' = 2 ^ (e' - 23) * 2 ^ 23 := by rw [hsplit, Nat.mul_comm]
        _ ≤ 2 ^ (e' - 23) * rne a' (b * 2 ^ (e' - 23)) :=
          Nat.mul_le_mul_left _ (le_trans h2 h1)
    have hmid : 2 ^ (e + 1) ≤ 2 ^ e' := Nat.pow_le_pow_right (by omega) (by omega)
    omega
  · have heq : e - 23 = e' - 23 := by omega
    rw [heq]
    exact Nat.mul_le_mul_left _
      (rne_mono _ h)

theorem f32_div_mono (d : Nat) {x y : Nat} (h : x ≤ y) :
    f32_div x d ≤ f32_div y d :=
  f32_round_mono d h

theorem f32_of_u32_mono {m n : Nat} (h : m ≤ n) : f32_of_u32 m ≤ f32_of_u32 n :=
  f32_round_mono 1 (Nat.mul_le_mul_right _ h)

/-! ## Lemmas on the normalisation loop -/

theorem rough_bound_nine : rough_bound 9 < 10 * F32_ONE := by decide

theorem rough_bound_nine_ceil : f32_ceil (rough_bound 9) = 2 := by decide

theorem f32_div_ten_one : f32_div (10 * F32_ONE) 10 = F32_ONE := by decide

theorem f32_quarter_top : f32_div (f32_of_u32 (2 ^ 32 - 1)) 4 = rough_bound 0 := by decide

theorem f32_quarter_one : f32_div (f32_of_u32 1) 4 = 2 ^ 23 := by decide

theorem f32_ceil_le_ten {x : Nat} (h : x < 10 * F32_ONE) : f32_ceil x ≤ 10 := by
  unfold f32_ceil
  unfold F32_ONE at *
  omega

theorem f32_ceil_pos {x : Nat} (h0 : 0 < x) (h : x < 10 * F32_ONE) : 1 ≤ f32_ceil x := by
  unfold f32_ceil
  unfold F32_ONE at *
  omega

theorem f32_ceil_mono {x y : Nat} (h : x ≤ y) (hy : y < 10 * F32_ONE) :
    f32_ceil x ≤ f32_ceil y := by
  unfold f32_ceil
  unfold F32_ONE at *
  omega

theorem normalise_loop_spec : ∀ (fuel x k : Nat), k ≤ 9 → x ≤ rough_bound k → 0 < x →
    10 ≤ fuel + k →
    ∃ x1 k1, normalise_loop fuel x (10 ^ k) k = Except.ok (x1, 10 ^ k1, k1) ∧
      k1 ≤ 9 ∧ 0 < x1 ∧ x1 < 10 * F32_ONE ∧ x1 ≤ rough_bound k1 := by
  intro fuel
  induction fuel with
  | zero =>
    intro x k h1 _ _ h4
    omega
  | succ fuel ih =>
    intro x k hk hx hpos hfuel
    unfold normalise_loop
    by_cases hten : 10 * F32_ONE ≤ x
    · rw [if_pos hten]
      have hk8 : k ≤ 8 := by
        by_contra h9
        have h9' : k = 9 := by omega
        subst h9'
        have := rough_bound_nine
        omega
      have hmag : (10 ^ k * 10) % 2 ^ 32 = 10 ^ (k + 1) := by
        rw [← pow_succ]
        apply Nat.mod_eq_of_lt
        calc 10 ^ (k + 1) ≤ 10 ^ 9 := Nat.pow_le_pow_right (by omega) (by omega)
          _ < 2 ^ 32 := by norm_num
      have hcnt : (k + 1) % 2 ^ 32 = k + 1 := Nat.mod_eq_of_lt (by omega)
      rw [hmag, hcnt]
      have hone : F32_ONE ≤ f32_div x 10 := by
        rw [← f32_div_ten_one]
        exact f32_div_mono 10 hten
      have hpos1 : 0 < f32_div x 10 := by
        unfold F32_ONE at hone
        omega
      exact ih (f32_div x 10) (k + 1) (by omega) (f32_div_mono 10 hx) hpos1 (by omega)
    · rw [if_neg hten]
      exact ⟨x, k, rfl, hk, hpos, by omega, hx⟩

theorem normalise_spec (fuel sr : Nat) (h0 : 0 < sr) (h32 : sr < 2 ^ 32) (hfuel : 10 ≤ fuel) :
    ∃ x n, normalise fuel sr = Except.ok (x, 10 ^ n, n) ∧ n ≤ 9 ∧
      1 ≤ f32_ceil x ∧ f32_ceil x ≤ 10 ∧ f32_ceil x * 10 ^ n ≤ 2000000000 := by
  have hup : f32_div (f32_of_u32 sr) 4 ≤ rough_bound 0 := by
    rw [← f32_quarter_top]
    exact f32_div_mono 4 (f32_of_u32_mono (by omega))
  have hlow : 0 < f32_div (f32_of_u32 sr) 4 := by
    have h1 : f32_div (f32_of_u32 1) 4 ≤ f32_div (f32_of_u32 sr) 4 :=
      f32_div_mono 4 (f32_of_u32_mono (by omega))
    rw [f32_quarter_one] at h1
    omega
  obtain ⟨x, n, hrun, hn, hx0, hx10, hxb⟩ :=
    normalise_loop_spec fuel (f32_div (f32_of_u32 sr) 4) 0 (by omega) hup hlow (by omega)
  refine ⟨x, n, hrun, hn, f32_ceil_pos hx0 hx10, f32_ceil_le_ten hx10, ?_⟩
  by_cases h9 : n = 9
  · subst h9
    have h2 : f32_ceil x ≤ 2 := by
      rw [← rough_bound_nine_ceil]
      exact f32_ceil_mono hxb rough_bound_nine
    calc f32_ceil x * 10 ^ 9 ≤ 2 * 10 ^ 9 := Nat.mul_le_mul_right _ h2
      _ = 2000000000 := by norm_num
  · have h8 : n ≤ 8 := by omega
    have hp : 10 ^ n ≤ 10 ^ 8 := Nat.pow_le_pow_right (by omega) h8
    calc f32_ceil x * 10 ^ n ≤ 10 * 10 ^ 8 := Nat.mul_le_mul (f32_ceil_le_ten hx10) hp
      _ ≤ 2000000000 := by norm_num

/-! ## Lemmas on the tick loop -/

theorem toCoord_idem (a : Int) : toCoord (toCoord a) = toCoord a := by
  unfold toCoord
  omega

theorem toCoord_add_two (a : Int) : toCoord (toCoord a + 2) = toCoord (a + 2) := by
  unfold toCoord
  omega

theorem toCoord_of_inCoord {a : Int} (h : inCoord a) : toCoord a = a := by
  unfold inCoord at h
  unfold toCoord
  omega

theorem rect_make_idem (a b c d : Int) :
    Rect.make (toCoord a) b c d = Rect.make a b c d := by
  unfold Rect.make
  rw [toCoord_idem]

theorem point_make_add_two (a b : Int) :
    Point.make (toCoord a + 2) b = Point.make (a + 2) b := by
  unfold Point.make
  rw [toCoord_add_two]

theorem tick_body_ok (fs : FrequencyScale) (r : Rect) (magnitude magnitude_n t : Nat)
    (hsr : fs.spectrum_sampling_rate ≠ 0) (hnowrap : t * magnitude < 2 ^ 32) :
    fs.tick_body r magnitude magnitude_n t =
      Except.ok (tick_pair r (tick_pixels fs magnitude t) (tick_label magnitude_n t)) := by
  unfold FrequencyScale.tick_body FrequencyScale.pixel_offset udiv32 tick_pair tick_pixels
  rw [if_neg hsr, Nat.mod_eq_of_lt hnowrap]
  simp only [rect_make_idem, point_make_add_two]

theorem tick_loop_spec (fs : FrequencyScale) (r : Rect) (ti mag n : Nat)
    (hti : 1 ≤ ti) (hmag : 1 ≤ mag) (hP : ti * mag ≤ 2000000000)
    (h32 : fs.spectrum_sampling_rate < 2 ^ 32) :
    ∀ (fuel j : Nat), 1 ≤ j → (j - 1) * ti * mag ≤ fs.spectrum_sampling_rate / 2 →
      fs.spectrum_sampling_rate / 2 + 2 ≤ fuel + j →
      ∃ K, j ≤ K + 1 ∧
        fs.tick_loop r ti mag n fuel (j * ti) =
          Except.ok ((List.range' j (K + 1 - j)).flatMap
            (fun i => tick_pair r (tick_pixels fs mag (i * ti)) (tick_label n (i * ti)))) ∧
        (∀ i, j ≤ i → i ≤ K → i * ti * mag < fs.spectrum_sampling_rate / 2) ∧
        ¬ ((K + 1) * ti * mag < fs.spectrum_sampling_rate / 2) := by
  intro fuel
  induction fuel with
  | zero =>
    intro j hj hinv hfuel
    exfalso
    have h1 : j - 1 ≤ (j - 1) * ti * mag := by
      calc j - 1 = (j - 1) * 1 * 1 := by simp
        _ ≤ (j - 1) * ti * mag := Nat.mul_le_mul (Nat.mul_le_mul_left _ hti) hmag
    omega
  | succ fuel ih =>
    intro j hj hinv hfuel
    have hstep : j * ti * mag = (j - 1) * ti * mag + ti * mag := by
      obtain ⟨i, rfl⟩ : ∃ i, j = i + 1 := ⟨j - 1, by omega⟩
      simp only [Nat.add_sub_cancel]
      ring
    have hnowrap : j * ti * mag < 2 ^ 32 := by omega
    have hti_le : j * ti ≤ j * ti * mag := Nat.le_mul_of_pos_right _ hmag
    unfold FrequencyScale.tick_loop
    rw [Nat.mod_eq_of_lt hnowrap]
    by_cases hcont : j * ti * mag < fs.spectrum_sampling_rate / 2
    · rw [if_pos hcont]
      have hsr : fs.spectrum_sampling_rate ≠ 0 := by omega
      rw [tick_body_ok fs r mag n (j * ti) hsr hnowrap]
      have hnext : (j + 1) * ti = j * ti + ti := by ring
      have hti_P : ti ≤ ti * mag := Nat.le_mul_of_pos_right _ hmag
      have hmod : (j * ti + ti) % 2 ^ 32 = (j + 1) * ti := by
        rw [hnext]
        apply Nat.mod_eq_of_lt
        omega
      rw [hmod]
      obtain ⟨K, hK, hrun, hall, hstop⟩ := ih (j + 1) (by omega)
        (by simpa using le_of_lt hcont) (by omega)
      refine ⟨K, by omega, ?_, ?_, hstop⟩
      · rw [hrun]
        have hlen : K + 1 - j = (K + 1 - (j + 1)) + 1 := by omega
        rw [hlen, List.range'_succ]
        simp [List.flatMap_cons]
      · intro i hi1 hi2
        by_cases hij : i = j
        · rw [hij]
          exact hcont
        · exact hall i (by omega) hi2
    · rw [if_neg hcont]
      refine ⟨j - 1, by omega, ?_, ?_, ?_⟩
      · have : j - 1 + 1 - j = 0 := by omega
        rw [this]
        rfl
      · intro i hi1 hi2
        omega
      · have : j - 1 + 1 = j := by omega
        rw [this]
        exact hcont

/-- What `draw_frequency_ticks` draws for a non-zero 32 bit sampling rate, given fuel of
at least 10 and more than half the rate: the centre tick, then the tick pairs
at the offsets `ti, 2 * ti, ..., K * ti`, where `K` is the number of multiples of
`ti * 10 ^ n` below half the rate. -/
theorem draw_frequency_ticks_spec (fuel : Nat) (fs : FrequencyScale) (r : Rect)
    (h0 : 0 < fs.spectrum_sampling_rate) (h32 : fs.spectrum_sampling_rate < 2 ^ 32)
    (hfuel : 10 ≤ fuel) (hfuel2 : fs.spectrum_sampling_rate / 2 < fuel) :
    ∃ x n K, normalise fuel fs.spectrum_sampling_rate = Except.ok (x, 10 ^ n, n) ∧ n ≤ 9 ∧
      1 ≤ f32_ceil x ∧ f32_ceil x ≤ 10 ∧
      fs.draw_frequency_ticks fuel r =
        Except.ok (center_tick r :: (List.range' 1 K).flatMap
          (fun i => tick_pair r (tick_pixels fs (10 ^ n) (i * f32_ceil x))
            (tick_label n (i * f32_ceil x)))) ∧
      (∀ i, 1 ≤ i → i ≤ K → i * f32_ceil x * 10 ^ n < fs.spectrum_sampling_rate / 2) ∧
      ¬ ((K + 1) * f32_ceil x * 10 ^ n < fs.spectrum_sampling_rate / 2) := by
  obtain ⟨x, n, hnorm, hn, hti1, hti10, hP⟩ :=
    normalise_spec fuel fs.spectrum_sampling_rate h0 h32 hfuel
  obtain ⟨K, _, hrun, hall, hstop⟩ :=
    tick_loop_spec fs r (f32_ceil x) (10 ^ n) n hti1 (Nat.one_le_pow _ _ (by omega)) hP h32
      fuel 1 (le_refl 1) (by simp) (by omega)
  refine ⟨x, n, K, hnorm, hn, hti1, hti10, ?_, hall, hstop⟩
  unfold FrequencyScale.draw_frequency_ticks
  rw [hnorm]
  simp only
  rw [Nat.one_mul] at hrun
  rw [hrun]
  simp

/-! ## Lemmas on the filter bands -/

theorem rect_make_left (a b c d : Int) : (Rect.make a b c d).left = toCoord a := rfl

theorem rect_make_right (a b c d : Int) :
    (Rect.make a b c d).right = toCoord a + toCoord c := rfl


theorem toCoord_u32_add (a b : Int) : toCoord (u32 (a + u32 b)) = toCoord (a + b) := by
  unfold toCoord u32
  omega

theorem toCoord_u32_sub (a b : Int) : toCoord (u32 (u32 a - u32 b)) = toCoord (a - b) := by
  unfold toCoord u32
  omega

theorem filter_offset_ok (fs : FrequencyScale) (f : Nat) (hsr : fs.spectrum_sampling_rate ≠ 0) :
    fs.filter_offset f =
      Except.ok ((f * fs.spectrum_bins) % 2 ^ 32 / fs.spectrum_sampling_rate) := by
  unfold FrequencyScale.filter_offset udiv32
  rw [if_neg hsr]

/-- The rectangles of `draw_filter_ranges` in terms of the two pixel offsets: the
unsigned wrap-arounds of the intermediate values cancel in the narrowing. -/
theorem draw_filter_ranges_eq (fs : FrequencyScale) (r : Rect) (po so : Nat)
    (hpass : fs.channel_filter_pass_frequency ≠ 0)
    (hpo : fs.filter_offset fs.channel_filter_pass_frequency = Except.ok po)
    (hso : fs.filter_offset fs.channel_filter_stop_frequency = Except.ok so) :
    fs.draw_filter_ranges r = Except.ok (
      (if fs.channel_filter_stop_frequency ≠ 0 then
        [DrawOp.fill_rectangle (Rect.make (r.left + r.width.tdiv 2 - so)
            (r.bottom - fs.filter_band_height) ((so : Int) - po) fs.filter_band_height)
            Color.yellow,
         DrawOp.fill_rectangle (Rect.make (r.left + r.width.tdiv 2 + po)
            (r.bottom - fs.filter_band_height) ((so : Int) - po) fs.filter_band_height)
            Color.yellow]
      else []) ++
      [DrawOp.fill_rectangle (Rect.make (r.left + r.width.tdiv 2 - po)
          (r.bottom - fs.filter_band_height) (2 * (po : Int)) fs.filter_band_height)
          Color.green]) := by
  unfold FrequencyScale.draw_filter_ranges
  rw [if_pos hpass, hpo, hso]
  simp only
  have e1 : toCoord (u32 (r.left + u32 (r.width.tdiv 2 - (so : Int)))) =
      toCoord (r.left + r.width.tdiv 2 - so) := by
    rw [toCoord_u32_add]
    congr 1
    ring
  have e2 : toCoord (u32 (u32 (r.width.tdiv 2 - (po : Int)) - u32 (r.width.tdiv 2 - (so : Int)))) =
      toCoord ((so : Int) - po) := by
    rw [toCoord_u32_sub]
    congr 1
    ring
  have e3 : toCoord (u32 (r.left + u32 (r.width.tdiv 2 + (po : Int)))) =
      toCoord (r.left + r.width.tdiv 2 + po) := by
    rw [toCoord_u32_add]
    congr 1
    ring
  have e4 : toCoord (u32 (u32 (r.width.tdiv 2 + (so : Int)) - u32 (r.width.tdiv 2 + (po : Int)))) =
      toCoord ((so : Int) - po) := by
    rw [toCoord_u32_sub]
    congr 1
    ring
  have e5 : toCoord (u32 (r.left + u32 (r.width.tdiv 2 - (po : Int)))) =
      toCoord (r.left + r.width.tdiv 2 - po) := by
    rw [toCoord_u32_add]
    congr 1
    ring
  have e6 : toCoord (u32 (u32 (r.width.tdiv 2 + (po : Int)) - u32 (r.width.tdiv 2 - (po : Int)))) =
      toCoord (2 * (po : Int)) := by
    rw [toCoord_u32_sub]
    congr 1
    ring
  unfold Rect.make
  rw [e1, e2, e3, e4, e5, e6]

/-! ## Lemmas on faults and fuel -/

theorem normalise_loop_no_div : ∀ (fuel x m n : Nat),
    normalise_loop fuel x m n ≠ Except.error Fault.div_by_zero := by
  intro fuel
  induction fuel with
  | zero =>
    intro x m n
    unfold normalise_loop
    decide
  | succ fuel ih =>
    intro x m n
    unfold normalise_loop
    split_ifs
    · exact ih _ _ _
    · simp

theorem tick_body_some (fs : FrequencyScale) (r : Rect) (mag n t : Nat)
    (hsr : fs.spectrum_sampling_rate ≠ 0) : ∃ ops, fs.tick_body r mag n t = Except.ok ops := by
  unfold FrequencyScale.tick_body FrequencyScale.pixel_offset udiv32
  rw [if_neg hsr]
  exact ⟨_, rfl⟩

theorem tick_loop_no_div (fs : FrequencyScale) (r : Rect) (ti mag n : Nat)
    (hsr : fs.spectrum_sampling_rate ≠ 0) : ∀ (fuel t : Nat),
    fs.tick_loop r ti mag n fuel t ≠ Except.error Fault.div_by_zero := by
  intro fuel
  induction fuel with
  | zero =>
    intro t
    unfold FrequencyScale.tick_loop
    decide
  | succ fuel ih =>
    intro t
    unfold FrequencyScale.tick_loop
    split_ifs
    · obtain ⟨ops, hops⟩ := tick_body_some fs r mag n t hsr
      rw [hops]
      have hrec := ih ((t + ti) % 2 ^ 32)
      cases hres : fs.tick_loop r ti mag n fuel ((t + ti) % 2 ^ 32) with
      | error e =>
        rw [hres] at hrec
        simp only [ne_eq, Except.error.injEq] at hrec ⊢
        exact hrec
      | ok rest => simp
    · simp

theorem draw_filter_ranges_some (fs : FrequencyScale) (r : Rect)
    (hsr : fs.spectrum_sampling_rate ≠ 0) : ∃ ops, fs.draw_filter_ranges r = Except.ok ops := by
  by_cases hp : fs.channel_filter_pass_frequency = 0
  · unfold FrequencyScale.draw_filter_ranges
    rw [if_neg (by simp [hp])]
    exact ⟨_, rfl⟩
  · exact ⟨_, draw_filter_ranges_eq fs r _ _ hp (filter_offset_ok fs _ hsr)
      (filter_offset_ok fs _ hsr)⟩

/-- Without the guard of `paint`: at a zero sampling rate and a non-zero pass
frequency `draw_filter_ranges` divides by zero. -/
theorem draw_filter_ranges_unguarded :
    scale_zero.draw_filter_ranges demo_rect = Except.error Fault.div_by_zero := by
  decide

theorem normalise_loop_fuel_mono : ∀ (fuel x m n : Nat) (v : Nat × Nat × Nat),
    normalise_loop fuel x m n = Except.ok v →
    ∀ k, normalise_loop (fuel + k) x m n = Except.ok v := by
  intro fuel
  induction fuel with
  | zero =>
    intro x m n v h
    unfold normalise_loop at h
    simp at h
  | succ fuel ih =>
    intro x m n v h k
    have hk : fuel + 1 + k = (fuel + k) + 1 := by omega
    rw [hk]
    unfold normalise_loop at h ⊢
    split_ifs at h ⊢
    · exact ih _ _ _ v h k
    · exact h

theorem tick_pixels_lt (fs : FrequencyScale) (mag t : Nat)
    (hbins : fs.spectrum_bins = 256)
    (ht : t * mag < fs.spectrum_sampling_rate / 2) :
    0 ≤ tick_pixels fs mag t ∧ tick_pixels fs mag t < 128 := by
  unfold tick_pixels
  rw [hbins]
  have hsr : 0 < fs.spectrum_sampling_rate := by omega
  have hmod : (t * mag * 256) % 2 ^ 32 ≤ t * mag * 256 := Nat.mod_le _ _
  have hq : (t * mag * 256) % 2 ^ 32 / fs.spectrum_sampling_rate < 128 := by
    rw [Nat.div_lt_iff_lt_mul hsr]
    omega
  generalize (t * mag * 256) % 2 ^ 32 / fs.spectrum_sampling_rate = q at hq
  unfold toCoord
  omega

/-! ## Lemmas on the labels and on the 1 MHz scale -/

theorem tick_label_eq_words (m t : Nat) : tick_label m t = label_of_words m t := by
  unfold tick_label label_of_words to_string_dec_uint
  have hmod : m % 3 = 0 ∨ m % 3 = 1 ∨ m % 3 = 2 := by omega
  have hpad : (if m % 3 = 0 then "" else if m % 3 = 1 then "0" else "00") =
      String.mk (List.replicate (m % 3) '0') := by
    rcases hmod with h | h | h <;> rw [h] <;> rfl
  have hunit : (if m ≥ 6 then "M" else if m ≥ 3 then "k" else "") =
      (if 6 ≤ m then "M" else if 3 ≤ m ∧ m < 6 then "k" else "") := by
    by_cases h6 : 6 ≤ m
    · simp [h6]
    · by_cases h3 : 3 ≤ m
      · have h36 : 3 ≤ m ∧ m < 6 := by omega
        simp [h6, h3, h36]
      · have h36 : ¬ (3 ≤ m ∧ m < 6) := by omega
        simp [h6, h3, h36]
  simp only [hpad, hunit]

theorem normalise_1M (fuel : Nat) (hfuel : 6 ≤ fuel) :
    normalise fuel 1000000 = Except.ok (83886080, 100000, 5) := by
  obtain ⟨k, rfl⟩ : ∃ k, fuel = 6 + k := ⟨fuel - 6, by omega⟩
  unfold normalise
  exact normalise_loop_fuel_mono 6 _ 1 0 _ (by decide) k

theorem tick_loop_1M (fs : FrequencyScale) (r : Rect) (fuel : Nat)
    (hsr : fs.spectrum_sampling_rate = 1000000) (hbins : fs.spectrum_bins = 256)
    (hfuel : 2 ≤ fuel) :
    fs.tick_loop r 3 100000 5 fuel 3 = Except.ok (tick_pair r 76 "300k") := by
  obtain ⟨k, rfl⟩ : ∃ k, fuel = k + 1 + 1 := ⟨fuel - 2, by omega⟩
  have hpix : tick_pixels fs 100000 3 = 76 := by
    unfold tick_pixels
    rw [hbins, hsr]
    decide
  have hlab : tick_label 5 3 = "300k" := by decide
  unfold FrequencyScale.tick_loop
  rw [if_pos (by rw [hsr]; decide),
    tick_body_ok fs r 100000 5 3 (by omega) (by decide), hpix, hlab]
  simp only
  unfold FrequencyScale.tick_loop
  rw [if_neg (by rw [hsr]; decide)]
  simp

/-! ## Lemmas on the pixel row -/

theorem row_loop_spec (lut : List Color) (db : List Nat) (src : Nat → Nat) :
    ∀ (n i : Nat) (row : List Color), i + n ≤ row.length →
      (∀ j, i ≤ j → j < i + n → ∃ c, lut_of_bin lut db (src j) = some c) →
      ∃ out, row_loop lut db src n i row = some out ∧ out.length = row.length ∧
        ∀ j, out[j]? = if i ≤ j ∧ j < i + n then lut_of_bin lut db (src j) else row[j]? := by
  intro n
  induction n with
  | zero =>
    intro i row _ _
    refine ⟨row, rfl, rfl, ?_⟩
    intro j
    have : ¬ (i ≤ j ∧ j < i + 0) := by omega
    rw [if_neg this]
  | succ n ih =>
    intro i row hlen hsrc
    obtain ⟨c, hc⟩ := hsrc i (le_refl i) (by omega)
    have hi : i < row.length := by omega
    have hstore : store row i c = some (row.set i c) := by simp [store, hi]
    obtain ⟨out, hout, hl, hget⟩ := ih (i + 1) (row.set i c) (by simp; omega)
      (fun j h1 h2 => hsrc j (by omega) (by omega))
    refine ⟨out, ?_, ?_, ?_⟩
    · simp only [row_loop, hc, hstore]
      exact hout
    · simpa using hl
    · intro j
      rw [hget j]
      by_cases hj : j = i
      · subst hj
        have h1 : ¬ (j + 1 ≤ j ∧ j < j + 1 + n) := by omega
        have h2 : j ≤ j ∧ j < j + (n + 1) := by omega
        simp [h1, h2, hc, hi]
      · by_cases h3 : i + 1 ≤ j ∧ j < i + 1 + n
        · have h4 : i ≤ j ∧ j < i + (n + 1) := by omega
          simp [h3, h4]
        · have h4 : ¬ (i ≤ j ∧ j < i + (n + 1)) := by omega
          have h5 : i ≠ j := fun h => hj h.symm
          simp [h3, h4, List.getElem?_set, h5]

theorem lut_of_bin_some (lut : List Color) (db : List Nat) (k : Nat)
    (hlut : lut.length = 256) (hdb : ∀ b ∈ db, b < 256) (hk : k < db.length) :
    ∃ c, lut_of_bin lut db k = some c := by
  have hb : db[k] < lut.length := by
    rw [hlut]
    exact hdb _ (List.getElem_mem hk)
  exact ⟨lut[db[k]], by simp [lut_of_bin, List.getElem?_eq_getElem hk, List.getElem?_eq_getElem hb]⟩

theorem build_pixel_row_spec (lut : List Color) (spectrum : ChannelSpectrum)
    (uninit : Nat → Color) (hlut : lut.length = 256) (hlen : spectrum.db.length = 256)
    (hbyte : ∀ b ∈ spectrum.db, b < 256) :
    ∃ pixel_row, build_pixel_row lut spectrum uninit = some pixel_row ∧
      pixel_row.length = 240 ∧
      (∀ i, i < 120 → pixel_row[i]? = lut_of_bin lut spectrum.db (256 - 120 + i)) ∧
      (∀ i, 120 ≤ i → i < 240 → pixel_row[i]? = lut_of_bin lut spectrum.db (i - 120)) := by
  obtain ⟨row1, h1, hl1, hg1⟩ := row_loop_spec lut spectrum.db (fun i => 256 - 120 + i)
    120 0 ((List.range 240).map uninit) (by simp)
    (fun j _ hj => lut_of_bin_some lut spectrum.db _ hlut hbyte
      (by rw [hlen]; show 256 - 120 + j < 256; omega))
  obtain ⟨row2, h2, hl2, hg2⟩ := row_loop_spec lut spectrum.db (fun i => i - 120)
    120 120 row1 (by rw [hl1]; simp)
    (fun j _ hj => lut_of_bin_some lut spectrum.db _ hlut hbyte
      (by rw [hlen]; show j - 120 < 256; omega))
  refine ⟨row2, ?_, ?_, ?_, ?_⟩
  · simp only [build_pixel_row, h1, h2]
  · rw [hl2, hl1]
    simp
  · intro i hi
    have ha : ¬ (120 ≤ i ∧ i < 120 + 120) := by omega
    have hb : 0 ≤ i ∧ i < 0 + 120 := by omega
    rw [hg2 i, if_neg ha, hg1 i, if_pos hb]
  · intro i hi1 hi2
    have ha : 120 ≤ i ∧ i < 120 + 120 := by omega
    rw [hg2 i, if_pos ha]

/-- C1: the 240 pixel row of `WaterfallView::on_channel_spectrum`.  For a frame
of 256 bytes and a colour table of 256 entries the row is drawn, output index
`i < 120` holds `spectrum_rgb3_lut[db[256 - 120 + i]]` and output index
`120 ≤ i < 240` holds `spectrum_rgb3_lut[db[i - 120]]`; index 0 shows bin 136,
index 239 shows bin 119 and bin 0 is shown at index 120. -/
theorem waterfall_row_mapping (lut : List Color) (spectrum : ChannelSpectrum)
    (uninit : Nat → Color) (draw_y : Int)
    (hlut : lut.length = 256) (hlen : spectrum.db.length = 256)
    (hbyte : ∀ b ∈ spectrum.db, b < 256) :
    ∃ pixel_row : List Color,
      WaterfallView.on_channel_spectrum lut spectrum uninit draw_y =
        some [DrawOp.scroll 1, DrawOp.draw_pixels (Rect.make 0 draw_y 240 1) pixel_row] ∧
      pixel_row.length = 240 ∧
      (∀ i, i < 120 →
        pixel_row[i]? = (spectrum.db[256 - 120 + i]?).bind (fun b => lut[b]?)) ∧
      (∀ i, 120 ≤ i → i < 240 →
        pixel_row[i]? = (spectrum.db[i - 120]?).bind (fun b => lut[b]?)) ∧
      pixel_row[0]? = (spectrum.db[136]?).bind (fun b => lut[b]?) ∧
      pixel_row[239]? = (spectrum.db[119]?).bind (fun b => lut[b]?) ∧
      pixel_row[120]? = (spectrum.db[0]?).bind (fun b => lut[b]?) := by
  obtain ⟨row, hrow, hl, hlo, hhi⟩ := build_pixel_row_spec lut spectrum uninit hlut hlen hbyte
  refine ⟨row, ?_, hl, ?_, ?_, ?_, ?_, ?_⟩
  · simp only [WaterfallView.on_channel_spectrum, hrow, hl]
    rfl
  · intro i hi
    exact hlo i hi
  · intro i h1 h2
    exact hhi i h1 h2
  · exact hlo 0 (by omega)
  · exact hhi 239 (by omega) (by omega)
  · exact hhi 120 (by omega) (by omega)

theorem ramp_frame_db : ramp_frame.db = ramp_db := rfl

/-- Witness of C1 on the frame whose bin `k` has the colour `k`. -/
theorem waterfall_row_mapping_witness :
    ∃ pixel_row : List Color,
      WaterfallView.on_channel_spectrum ramp_lut ramp_frame (fun _ => Color.black) 7 =
        some [DrawOp.scroll 1, DrawOp.draw_pixels (Rect.make 0 7 240 1) pixel_row] ∧
      pixel_row.length = 240 ∧
      (∀ i, i < 120 →
        pixel_row[i]? = (ramp_frame.db[256 - 120 + i]?).bind (fun b => ramp_lut[b]?)) ∧
      (∀ i, 120 ≤ i → i < 240 →
        pixel_row[i]? = (ramp_frame.db[i - 120]?).bind (fun b => ramp_lut[b]?)) ∧
      pixel_row[0]? = (ramp_frame.db[136]?).bind (fun b => ramp_lut[b]?) ∧
      pixel_row[239]? = (ramp_frame.db[119]?).bind (fun b => ramp_lut[b]?) ∧
      pixel_row[120]? = (ramp_frame.db[0]?).bind (fun b => ramp_lut[b]?) :=
  waterfall_row_mapping ramp_lut ramp_frame (fun _ => Color.black) 7
    (by unfold ramp_lut; rw [List.length_map, List.length_range])
    (by rw [ramp_frame_db]; unfold ramp_db; rw [List.length_range])
    (by
      intro b hb
      rw [ramp_frame_db] at hb
      unfold ramp_db at hb
      exact List.mem_range.mp hb)

/-! ## The frequency ticks (C2, C3, C4) -/

/-- C2: for every non-zero 32 bit sampling rate, `draw_frequency_ticks` (fuel at
least 10 and more than half the rate) draws the centre tick and the tick pairs at
the offsets `i * tick_interval`, `i = 1 .. K`; every drawn offset satisfies
`tick_offset * magnitude < sampling_rate / 2` and the next would-be offset
`K * tick_interval + tick_interval` does not. -/
theorem tick_boundary_exact (fuel : Nat) (fs : FrequencyScale) (r : Rect)
    (h0 : 0 < fs.spectrum_sampling_rate) (h32 : fs.spectrum_sampling_rate < 2 ^ 32)
    (hfuel : 10 ≤ fuel) (hfuel2 : fs.spectrum_sampling_rate / 2 < fuel) :
    ∃ rough magnitude magnitude_n K,
      normalise fuel fs.spectrum_sampling_rate = Except.ok (rough, magnitude, magnitude_n) ∧
      fs.draw_frequency_ticks fuel r =
        Except.ok (center_tick r :: (List.range' 1 K).flatMap
          (fun i => tick_pair r (tick_pixels fs magnitude (i * f32_ceil rough))
            (tick_label magnitude_n (i * f32_ceil rough)))) ∧
      (∀ i, 1 ≤ i → i ≤ K →
        (i * f32_ceil rough) * magnitude < fs.spectrum_sampling_rate / 2) ∧
      ¬ ((K * f32_ceil rough + f32_ceil rough) * magnitude < fs.spectrum_sampling_rate / 2) := by
  obtain ⟨x, n, K, hnorm, _, _, _, hdraw, hall, hstop⟩ :=
    draw_frequency_ticks_spec fuel fs r h0 h32 hfuel hfuel2
  refine ⟨x, 10 ^ n, n, K, hnorm, hdraw, hall, ?_⟩
  have hmul : K * f32_ceil x + f32_ceil x = (K + 1) * f32_ceil x := by ring
  rw [hmul]
  exact hstop

/-- Witness of C2 at 20 kHz: one tick pair at the offset 5 with magnitude 1000;
`5 * 1000 < 10000` and `10 * 1000` is not below 10000. -/
theorem tick_boundary_exact_witness :
    (∃ rough magnitude magnitude_n K,
      normalise 10001 scale_20k.spectrum_sampling_rate =
        Except.ok (rough, magnitude, magnitude_n) ∧
      scale_20k.draw_frequency_ticks 10001 demo_rect =
        Except.ok (center_tick demo_rect :: (List.range' 1 K).flatMap
          (fun i => tick_pair demo_rect (tick_pixels scale_20k magnitude (i * f32_ceil rough))
            (tick_label magnitude_n (i * f32_ceil rough)))) ∧
      (∀ i, 1 ≤ i → i ≤ K →
        (i * f32_ceil rough) * magnitude < scale_20k.spectrum_sampling_rate / 2) ∧
      ¬ ((K * f32_ceil rough + f32_ceil rough) * magnitude <
          scale_20k.spectrum_sampling_rate / 2)) ∧
    normalise 10001 20000 = Except.ok (5 * F32_ONE, 1000, 3) ∧ f32_ceil (5 * F32_ONE) = 5 :=
  ⟨tick_boundary_exact 10001 scale_20k demo_rect (by decide) (by decide) (by decide)
    (by decide), by decide, by decide⟩

/-- C3: every tick pair drawn by `draw_frequency_ticks` carries, at the low and
at the high tick, the same label: the decimal digits of `tick_offset`, then
`m mod 3` zeros, then `M` when `m ≥ 6`, `k` when `3 ≤ m < 6` and nothing when
`m < 3`, where `m` is the number of divisions by ten of the normalisation. -/
theorem tick_labels (fuel : Nat) (fs : FrequencyScale) (r : Rect)
    (h0 : 0 < fs.spectrum_sampling_rate) (h32 : fs.spectrum_sampling_rate < 2 ^ 32)
    (hfuel : 10 ≤ fuel) (hfuel2 : fs.spectrum_sampling_rate / 2 < fuel) :
    ∃ rough m K,
      normalise fuel fs.spectrum_sampling_rate = Except.ok (rough, 10 ^ m, m) ∧
      fs.draw_frequency_ticks fuel r =
        Except.ok (center_tick r :: (List.range' 1 K).flatMap (fun i =>
          [DrawOp.fill_rectangle
              (Rect.make (r.left + r.width.tdiv 2 - tick_pixels fs (10 ^ m) (i * f32_ceil rough))
                r.top 1 r.height) Color.white,
           DrawOp.draw_string
              (Point.make (r.left + r.width.tdiv 2 -
                tick_pixels fs (10 ^ m) (i * f32_ceil rough) + 2) r.top)
              (Nat.repr (i * f32_ceil rough) ++ String.mk (List.replicate (m % 3) '0') ++
                (if 6 ≤ m then "M" else if 3 ≤ m ∧ m < 6 then "k" else "")),
           DrawOp.fill_rectangle
              (Rect.make (r.left + r.width.tdiv 2 + tick_pixels fs (10 ^ m) (i * f32_ceil rough))
                r.top 1 r.height) Color.white,
           DrawOp.draw_string
              (Point.make (r.left + r.width.tdiv 2 +
                tick_pixels fs (10 ^ m) (i * f32_ceil rough) + 2) r.top)
              (Nat.repr (i * f32_ceil rough) ++ String.mk (List.replicate (m % 3) '0') ++
                (if 6 ≤ m then "M" else if 3 ≤ m ∧ m < 6 then "k" else ""))])) := by
  obtain ⟨x, n, K, hnorm, _, _, _, hdraw, _, _⟩ :=
    draw_frequency_ticks_spec fuel fs r h0 h32 hfuel hfuel2
  refine ⟨x, n, K, hnorm, ?_⟩
  rw [hdraw]
  simp only [tick_pair, tick_label_eq_words, label_of_words]

/-- Witness of C3: a sampling rate of 20,000 gives `m = 3`, the tick offset 5
and the label `5k` at both ticks. -/
theorem tick_labels_witness :
    (∃ rough m K,
      normalise 10001 scale_20k.spectrum_sampling_rate = Except.ok (rough, 10 ^ m, m) ∧
      scale_20k.draw_frequency_ticks 10001 demo_rect =
        Except.ok (center_tick demo_rect :: (List.range' 1 K).flatMap (fun i =>
          [DrawOp.fill_rectangle
              (Rect.make (demo_rect.left + demo_rect.width.tdiv 2 -
                tick_pixels scale_20k (10 ^ m) (i * f32_ceil rough))
                demo_rect.top 1 demo_rect.height) Color.white,
           DrawOp.draw_string
              (Point.make (demo_rect.left + demo_rect.width.tdiv 2 -
                tick_pixels scale_20k (10 ^ m) (i * f32_ceil rough) + 2) demo_rect.top)
              (Nat.repr (i * f32_ceil rough) ++ String.mk (List.replicate (m % 3) '0') ++
                (if 6 ≤ m then "M" else if 3 ≤ m ∧ m < 6 then "k" else "")),
           DrawOp.fill_rectangle
              (Rect.make (demo_rect.left + demo_rect.width.tdiv 2 +
                tick_pixels scale_20k (10 ^ m) (i * f32_ceil rough))
                demo_rect.top 1 demo_rect.height) Color.white,
           DrawOp.draw_string
              (Point.make (demo_rect.left + demo_rect.width.tdiv 2 +
                tick_pixels scale_20k (10 ^ m) (i * f32_ceil rough) + 2) demo_rect.top)
              (Nat.repr (i * f32_ceil rough) ++ String.mk (List.replicate (m % 3) '0') ++
                (if 6 ≤ m then "M" else if 3 ≤ m ∧ m < 6 then "k" else ""))]))) ∧
    scale_20k.draw_frequency_ticks 10001 demo_rect = Except.ok [
      DrawOp.fill_rectangle ⟨120, 0, 1, 20⟩ Color.white,
      DrawOp.fill_rectangle ⟨56, 0, 1, 20⟩ Color.white,
      DrawOp.draw_string ⟨58, 0⟩ "5k",
      DrawOp.fill_rectangle ⟨184, 0, 1, 20⟩ Color.white,
      DrawOp.draw_string ⟨186, 0⟩ "5k"] :=
  ⟨tick_labels 10001 scale_20k demo_rect (by decide) (by decide) (by decide) (by decide),
   by decide⟩

/-- C4 as stated fails: at a sampling rate of 1,000,000 the normalisation
divides five times (`m = 5`) and the one tick pair is labelled `300k`, whose
last character is `k`. -/
theorem label_1M_is_not_M :
    normalise 10 1000000 = Except.ok (83886080, 100000, 5) ∧
    scale_1M.draw_frequency_ticks 10 demo_rect = Except.ok [
      DrawOp.fill_rectangle ⟨120, 0, 1, 20⟩ Color.white,
      DrawOp.fill_rectangle ⟨44, 0, 1, 20⟩ Color.white,
      DrawOp.draw_string ⟨46, 0⟩ "300k",
      DrawOp.fill_rectangle ⟨196, 0, 1, 20⟩ Color.white,
      DrawOp.draw_string ⟨198, 0⟩ "300k"] ∧
    "300k".data.getLast? = some 'k' := by
  decide

/-- C4, amended: for a sampling rate of 1,000,000 and 256 bins,
`draw_frequency_ticks` draws the centre tick and one tick pair, 76 pixels from
the centre, whose label is `300k`: the unit suffix is `k`. -/
theorem label_1M (fuel : Nat) (fs : FrequencyScale) (r : Rect)
    (hsr : fs.spectrum_sampling_rate = 1000000) (hbins : fs.spectrum_bins = 256)
    (hfuel : 6 ≤ fuel) :
    fs.draw_frequency_ticks fuel r = Except.ok (center_tick r :: tick_pair r 76 "300k") := by
  unfold FrequencyScale.draw_frequency_ticks
  rw [hsr, normalise_1M fuel hfuel]
  have hceil : f32_ceil 83886080 = 3 := by decide
  simp only [hceil]
  rw [tick_loop_1M fs r fuel hsr hbins (by omega)]

/-- Witness of C4, amended, on the full-width rectangle. -/
theorem label_1M_witness :
    scale_1M.draw_frequency_ticks 6 demo_rect =
      Except.ok (center_tick demo_rect :: tick_pair demo_rect 76 "300k") :=
  label_1M 6 scale_1M demo_rect rfl rfl (by decide)

/-! ## The filter bands (C5, C6, C7) -/

/-- C5: with a sampling rate of 8,000,000, a pass frequency of 1,000,000, a stop
frequency of 2,000,000 and 256 bins, `draw_filter_ranges` draws, for every
rectangle `r` with `c = r.left + r.width / 2`, the low stop band
`Rect { c - 64, _, 32, _ }`, the high stop band `Rect { c + 32, _, 32, _ }` and
the pass band `Rect { c - 32, _, 64, _ }`; the widths are 32, 32 and 64, and the
left edges are `c - 64`, `c + 32` and `c - 32` whenever the span
`c - 64 .. c + 64` lies in the coordinate range. -/
theorem filter_ranges_scenario (fs : FrequencyScale) (r : Rect)
    (hsr : fs.spectrum_sampling_rate = 8000000) (hbins : fs.spectrum_bins = 256)
    (hpass : fs.channel_filter_pass_frequency = 1000000)
    (hstop : fs.channel_filter_stop_frequency = 2000000) :
    ∃ r_stop_lo r_stop_hi r_pass : Rect,
      fs.draw_filter_ranges r = Except.ok [
        DrawOp.fill_rectangle r_stop_lo Color.yellow,
        DrawOp.fill_rectangle r_stop_hi Color.yellow,
        DrawOp.fill_rectangle r_pass Color.green] ∧
      r_stop_lo = Rect.make (r.left + r.width.tdiv 2 - 64)
        (r.bottom - fs.filter_band_height) 32 fs.filter_band_height ∧
      r_stop_hi = Rect.make (r.left + r.width.tdiv 2 + 32)
        (r.bottom - fs.filter_band_height) 32 fs.filter_band_height ∧
      r_pass = Rect.make (r.left + r.width.tdiv 2 - 32)
        (r.bottom - fs.filter_band_height) 64 fs.filter_band_height ∧
      r_pass.width = 64 ∧ r_stop_lo.width = 32 ∧ r_stop_hi.width = 32 ∧
      (inCoord (r.left + r.width.tdiv 2 - 64) → inCoord (r.left + r.width.tdiv 2 + 64) →
        r_pass.left = r.left + r.width.tdiv 2 - 32 ∧
        r_stop_lo.left = r.left + r.width.tdiv 2 - 64 ∧
        r_stop_hi.left = r.left + r.width.tdiv 2 + 32) := by
  have hsr0 : fs.spectrum_sampling_rate ≠ 0 := by omega
  have hpo : fs.filter_offset fs.channel_filter_pass_frequency = Except.ok 32 := by
    rw [filter_offset_ok fs _ hsr0, hpass, hbins, hsr]
    norm_num
  have hso : fs.filter_offset fs.channel_filter_stop_frequency = Except.ok 64 := by
    rw [filter_offset_ok fs _ hsr0, hstop, hbins, hsr]
    norm_num
  have hdraw := draw_filter_ranges_eq fs r 32 64 (by omega) hpo hso
  rw [if_pos (by omega)] at hdraw
  refine ⟨_, _, _, hdraw, ?_, ?_, ?_, rfl, rfl, rfl, ?_⟩
  · norm_num
  · norm_num
  · norm_num
  · intro hlo hhi
    unfold inCoord at hlo hhi
    simp only [rect_make_left]
    refine ⟨toCoord_of_inCoord ?_, toCoord_of_inCoord ?_, toCoord_of_inCoord ?_⟩ <;>
      unfold inCoord <;>
      push_cast <;>
      omega

/-- Witness of C5 on the full-width scale rectangle: the bands are drawn at
56, 152 and 88 for the centre 120. -/
theorem filter_ranges_scenario_witness :
    (∃ r_stop_lo r_stop_hi r_pass : Rect,
      scale_8M.draw_filter_ranges demo_rect = Except.ok [
        DrawOp.fill_rectangle r_stop_lo Color.yellow,
        DrawOp.fill_rectangle r_stop_hi Color.yellow,
        DrawOp.fill_rectangle r_pass Color.green] ∧
      r_stop_lo = Rect.make (demo_rect.left + demo_rect.width.tdiv 2 - 64)
        (demo_rect.bottom - scale_8M.filter_band_height) 32 scale_8M.filter_band_height ∧
      r_stop_hi = Rect.make (demo_rect.left + demo_rect.width.tdiv 2 + 32)
        (demo_rect.bottom - scale_8M.filter_band_height) 32 scale_8M.filter_band_height ∧
      r_pass = Rect.make (demo_rect.left + demo_rect.width.tdiv 2 - 32)
        (demo_rect.bottom - scale_8M.filter_band_height) 64 scale_8M.filter_band_height ∧
      r_pass.width = 64 ∧ r_stop_lo.width = 32 ∧ r_stop_hi.width = 32 ∧
      (inCoord (demo_rect.left + demo_rect.width.tdiv 2 - 64) →
        inCoord (demo_rect.left + demo_rect.width.tdiv 2 + 64) →
        r_pass.left = demo_rect.left + demo_rect.width.tdiv 2 - 32 ∧
        r_stop_lo.left = demo_rect.left + demo_rect.width.tdiv 2 - 64 ∧
        r_stop_hi.left = demo_rect.left + demo_rect.width.tdiv 2 + 32)) ∧
    inCoord (demo_rect.left + demo_rect.width.tdiv 2 - 64) ∧
    inCoord (demo_rect.left + demo_rect.width.tdiv 2 + 64) ∧
    scale_8M.draw_filter_ranges demo_rect = Except.ok [
      DrawOp.fill_rectangle ⟨56, 16, 32, 4⟩ Color.yellow,
      DrawOp.fill_rectangle ⟨152, 16, 32, 4⟩ Color.yellow,
      DrawOp.fill_rectangle ⟨88, 16, 64, 4⟩ Color.green] :=
  ⟨filter_ranges_scenario scale_8M demo_rect rfl rfl rfl rfl, by decide, by decide, by decide⟩

/-- C6, amended: for a non-zero sampling rate and 256 bins the pixel offset of
a frequency is `((frequency * 256) mod 2 ^ 32) / sampling_rate`; it is the exact
quotient `frequency * 256 / sampling_rate` for every frequency below `2 ^ 24`,
where the product does not wrap. -/
theorem filter_offset_exact (fs : FrequencyScale) (frequency : Nat)
    (hsr : 0 < fs.spectrum_sampling_rate) (hbins : fs.spectrum_bins = 256) :
    fs.filter_offset frequency =
        Except.ok ((frequency * 256) % 2 ^ 32 / fs.spectrum_sampling_rate) ∧
      (frequency < 2 ^ 24 →
        fs.filter_offset frequency =
          Except.ok (frequency * 256 / fs.spectrum_sampling_rate)) := by
  have h := filter_offset_ok fs frequency (by omega)
  rw [hbins] at h
  refine ⟨h, ?_⟩
  intro hf
  rw [h, Nat.mod_eq_of_lt (by omega)]

/-- Witness of C6, amended, at the 8 MHz scale and its pass frequency. -/
theorem filter_offset_exact_witness :
    scale_8M.filter_offset 1000000 =
        Except.ok ((1000000 * 256) % 2 ^ 32 / scale_8M.spectrum_sampling_rate) ∧
      (1000000 < 2 ^ 24 →
        scale_8M.filter_offset 1000000 =
          Except.ok (1000000 * 256 / scale_8M.spectrum_sampling_rate)) :=
  filter_offset_exact scale_8M 1000000 (by decide) rfl

/-- C6 as stated fails: at a sampling rate of 20,000,000 the pass frequency
17,000,000 has the pixel offset 2, the exact quotient is 217. -/
theorem filter_offset_wraps :
    scale_wide.filter_offset scale_wide.channel_filter_pass_frequency = Except.ok 2 ∧
      scale_wide.channel_filter_pass_frequency * 256 / scale_wide.spectrum_sampling_rate = 217 ∧
      scale_wide.filter_offset scale_wide.channel_filter_pass_frequency ≠
        Except.ok (scale_wide.channel_filter_pass_frequency * 256 /
          scale_wide.spectrum_sampling_rate) := by
  decide

/-- C7: for a non-zero sampling rate `draw_filter_ranges` draws nothing when
the pass frequency is zero; the green pass band alone when the pass frequency
is not zero and the stop frequency is; the low stop band (yellow), the high
stop band (yellow) and the pass band (green), in this order, when both are not
zero.  Every rectangle has the top `r.bottom - filter_band_height` and the
height `filter_band_height` (both in the coordinate range). -/
theorem filter_ranges_cases (fs : FrequencyScale) (r : Rect)
    (hsr : 0 < fs.spectrum_sampling_rate)
    (htop : inCoord (r.bottom - fs.filter_band_height))
    (hheight : inCoord fs.filter_band_height) :
    (fs.channel_filter_pass_frequency = 0 → fs.draw_filter_ranges r = Except.ok []) ∧
    (fs.channel_filter_pass_frequency ≠ 0 → fs.channel_filter_stop_frequency = 0 →
      ∃ r_pass : Rect,
        fs.draw_filter_ranges r = Except.ok [DrawOp.fill_rectangle r_pass Color.green] ∧
        r_pass.top = r.bottom - fs.filter_band_height ∧
        r_pass.height = fs.filter_band_height) ∧
    (fs.channel_filter_pass_frequency ≠ 0 → fs.channel_filter_stop_frequency ≠ 0 →
      ∃ (r_stop_lo r_stop_hi r_pass : Rect) (pass_offset stop_offset : Nat),
        fs.filter_offset fs.channel_filter_pass_frequency = Except.ok pass_offset ∧
        fs.filter_offset fs.channel_filter_stop_frequency = Except.ok stop_offset ∧
        fs.draw_filter_ranges r = Except.ok [
          DrawOp.fill_rectangle r_stop_lo Color.yellow,
          DrawOp.fill_rectangle r_stop_hi Color.yellow,
          DrawOp.fill_rectangle r_pass Color.green] ∧
        r_stop_lo.left = toCoord (r.left + r.width.tdiv 2 - stop_offset) ∧
        r_stop_hi.left = toCoord (r.left + r.width.tdiv 2 + pass_offset) ∧
        r_pass.left = toCoord (r.left + r.width.tdiv 2 - pass_offset) ∧
        r_stop_lo.top = r.bottom - fs.filter_band_height ∧
        r_stop_lo.height = fs.filter_band_height ∧
        r_stop_hi.top = r.bottom - fs.filter_band_height ∧
        r_stop_hi.height = fs.filter_band_height ∧
        r_pass.top = r.bottom - fs.filter_band_height ∧
        r_pass.height = fs.filter_band_height) := by
  have hsr0 : fs.spectrum_sampling_rate ≠ 0 := by omega
  have hpo := filter_offset_ok fs fs.channel_filter_pass_frequency hsr0
  have hso := filter_offset_ok fs fs.channel_filter_stop_frequency hsr0
  have ht := toCoord_of_inCoord htop
  have hh := toCoord_of_inCoord hheight
  refine ⟨?_, ?_, ?_⟩
  · intro hp
    unfold FrequencyScale.draw_filter_ranges
    rw [if_neg (by simp [hp])]
  · intro hp hs
    have hdraw := draw_filter_ranges_eq fs r _ _ hp hpo hso
    rw [if_neg (by simp [hs])] at hdraw
    exact ⟨_, hdraw, by simp only [Rect.make, Rect.top]; exact ht,
      by simp only [Rect.make, Rect.height]; exact hh⟩
  · intro hp hs
    have hdraw := draw_filter_ranges_eq fs r _ _ hp hpo hso
    rw [if_pos hs] at hdraw
    refine ⟨_, _, _, _, _, hpo, hso, hdraw, rfl, rfl, rfl, ?_, ?_, ?_, ?_, ?_, ?_⟩ <;>
      simp only [Rect.make, Rect.top, Rect.height] <;>
      first | exact ht | exact hh

/-- Witness of C7 at the 8 MHz scale on the full-width rectangle. -/
theorem filter_ranges_cases_witness :
    scale_8M.draw_filter_ranges demo_rect = Except.ok [
      DrawOp.fill_rectangle ⟨56, 16, 32, 4⟩ Color.yellow,
      DrawOp.fill_rectangle ⟨152, 16, 32, 4⟩ Color.yellow,
      DrawOp.fill_rectangle ⟨88, 16, 64, 4⟩ Color.green] ∧
    (scale_8M.channel_filter_pass_frequency = 0 →
      scale_8M.draw_filter_ranges demo_rect = Except.ok []) :=
  ⟨by decide,
   (filter_ranges_cases scale_8M demo_rect (by decide) (by decide) (by decide)).1⟩

/-! ## Symmetry about the centre (C8) -/

/-- C8: with `c = r.left + r.width / 2`, every tick pair is drawn at `c - p` and
`c + p` for the same pixel offset `p` (256 bins, `0 ≤ p < 128`); the pass band
spans from `c - pass_offset` to `c + pass_offset`; the low stop band spans from
`c - stop_offset` to `c - pass_offset`, the high one from `c + pass_offset` to
`c + stop_offset`, and both have the same width.  The coordinates and widths
named are taken in the coordinate range. -/
theorem symmetry_about_centre (fs : FrequencyScale) (r : Rect)
    (h0 : 0 < fs.spectrum_sampling_rate) :
    (∀ fuel : Nat, fs.spectrum_sampling_rate < 2 ^ 32 → fs.spectrum_bins = 256 →
      10 ≤ fuel → fs.spectrum_sampling_rate / 2 < fuel →
      inCoord (r.left + r.width.tdiv 2 - 128) → inCoord (r.left + r.width.tdiv 2 + 128) →
      ∃ (K : Nat) (p : Nat → Int) (label : Nat → String),
        fs.draw_frequency_ticks fuel r =
          Except.ok (center_tick r :: (List.range' 1 K).flatMap (fun i =>
            [DrawOp.fill_rectangle
                (Rect.make (r.left + r.width.tdiv 2 - p i) r.top 1 r.height) Color.white,
             DrawOp.draw_string (Point.make (r.left + r.width.tdiv 2 - p i + 2) r.top) (label i),
             DrawOp.fill_rectangle
                (Rect.make (r.left + r.width.tdiv 2 + p i) r.top 1 r.height) Color.white,
             DrawOp.draw_string (Point.make (r.left + r.width.tdiv 2 + p i + 2) r.top)
                (label i)])) ∧
        ∀ i, 1 ≤ i → i ≤ K → 0 ≤ p i ∧ p i < 128 ∧
          (Rect.make (r.left + r.width.tdiv 2 - p i) r.top 1 r.height).left =
            r.left + r.width.tdiv 2 - p i ∧
          (Rect.make (r.left + r.width.tdiv 2 + p i) r.top 1 r.height).left =
            r.left + r.width.tdiv 2 + p i) ∧
    (∀ pass_offset stop_offset : Nat,
      fs.filter_offset fs.channel_filter_pass_frequency = Except.ok pass_offset →
      fs.filter_offset fs.channel_filter_stop_frequency = Except.ok stop_offset →
      fs.channel_filter_pass_frequency ≠ 0 →
      inCoord (r.left + r.width.tdiv 2 - pass_offset) →
      inCoord (r.left + r.width.tdiv 2 + pass_offset) →
      inCoord (2 * (pass_offset : Int)) →
      (∃ (stop_bands : List DrawOp) (r_pass : Rect),
        fs.draw_filter_ranges r =
          Except.ok (stop_bands ++ [DrawOp.fill_rectangle r_pass Color.green]) ∧
        r_pass.left = r.left + r.width.tdiv 2 - pass_offset ∧
        r_pass.right = r.left + r.width.tdiv 2 + pass_offset) ∧
      (fs.channel_filter_stop_frequency ≠ 0 →
        inCoord (r.left + r.width.tdiv 2 - stop_offset) →
        inCoord ((stop_offset : Int) - pass_offset) →
        ∃ r_stop_lo r_stop_hi r_pass : Rect,
          fs.draw_filter_ranges r = Except.ok [
            DrawOp.fill_rectangle r_stop_lo Color.yellow,
            DrawOp.fill_rectangle r_stop_hi Color.yellow,
            DrawOp.fill_rectangle r_pass Color.green] ∧
          r_stop_lo.left = r.left + r.width.tdiv 2 - stop_offset ∧
          r_stop_lo.right = r.left + r.width.tdiv 2 - pass_offset ∧
          r_stop_hi.left = r.left + r.width.tdiv 2 + pass_offset ∧
          r_stop_hi.right = r.left + r.width.tdiv 2 + stop_offset ∧
          r_stop_lo.width = r_stop_hi.width)) := by
  constructor
  · intro fuel h32 hbins hfuel hfuel2 hlo hhi
    obtain ⟨x, n, K, _, _, _, _, hdraw, hall, _⟩ :=
      draw_frequency_ticks_spec fuel fs r h0 h32 hfuel hfuel2
    refine ⟨K, fun i => tick_pixels fs (10 ^ n) (i * f32_ceil x),
      fun i => tick_label n (i * f32_ceil x), ?_, ?_⟩
    · rw [hdraw]
      simp only [tick_pair]
    · intro i hi1 hi2
      obtain ⟨hp0, hp1⟩ := tick_pixels_lt fs (10 ^ n) (i * f32_ceil x) hbins (hall i hi1 hi2)
      simp only [rect_make_left]
      unfold inCoord at hlo hhi
      refine ⟨hp0, hp1, toCoord_of_inCoord ?_, toCoord_of_inCoord ?_⟩
      · unfold inCoord
        omega
      · unfold inCoord
        omega
  · intro po so hpo hso hpass hlo hhi hw
    have hdraw := draw_filter_ranges_eq fs r po so hpass hpo hso
    have e1 := toCoord_of_inCoord hlo
    have e2 := toCoord_of_inCoord hhi
    have e3 := toCoord_of_inCoord hw
    constructor
    · refine ⟨_, _, hdraw, ?_, ?_⟩
      · rw [rect_make_left, e1]
      · rw [rect_make_right, e1, e3]
        ring
    · intro hstop hslo hsw
      rw [if_pos hstop] at hdraw
      have e4 := toCoord_of_inCoord hslo
      have e5 := toCoord_of_inCoord hsw
      refine ⟨_, _, _, hdraw, ?_, ?_, ?_, ?_, ?_⟩
      · rw [rect_make_left, e4]
      · rw [rect_make_right, e4, e5]
        ring
      · rw [rect_make_left, e2]
      · rw [rect_make_right, e2, e5]
        ring
      · rfl

/-- Witness of C8 at the 8 MHz scale: the pass offset is 32, the stop offset 64. -/
theorem symmetry_about_centre_witness :
    ∃ r_stop_lo r_stop_hi r_pass : Rect,
      scale_8M.draw_filter_ranges demo_rect = Except.ok [
        DrawOp.fill_rectangle r_stop_lo Color.yellow,
        DrawOp.fill_rectangle r_stop_hi Color.yellow,
        DrawOp.fill_rectangle r_pass Color.green] ∧
      r_stop_lo.left = demo_rect.left + demo_rect.width.tdiv 2 - (64 : Nat) ∧
      r_stop_lo.right = demo_rect.left + demo_rect.width.tdiv 2 - (32 : Nat) ∧
      r_stop_hi.left = demo_rect.left + demo_rect.width.tdiv 2 + (32 : Nat) ∧
      r_stop_hi.right = demo_rect.left + demo_rect.width.tdiv 2 + (64 : Nat) ∧
      r_stop_lo.width = r_stop_hi.width :=
  ((symmetry_about_centre scale_8M demo_rect (by decide)).2 32 64 (by decide) (by decide)
    (by decide) (by decide) (by decide) (by decide)).2 (by decide) (by decide) (by decide)

/-! ## The guard of `paint` (C9, C10) -/

/-- C9: with a sampling rate of zero `paint` draws the black background of the
widget rectangle and nothing else, whatever the filter frequencies are. -/
theorem paint_zero_rate (fuel : Nat) (fs : FrequencyScale) (r : Rect)
    (hsr : fs.spectrum_sampling_rate = 0) :
    fs.paint fuel r = Except.ok [DrawOp.fill_rectangle r Color.black] := by
  unfold FrequencyScale.paint FrequencyScale.clear_background
  rw [if_pos hsr]

/-- Witness of C9 with both filter frequencies set. -/
theorem paint_zero_rate_witness :
    scale_zero.spectrum_sampling_rate = 0 ∧
      scale_zero.paint 0 demo_rect = Except.ok [DrawOp.fill_rectangle demo_rect Color.black] :=
  ⟨rfl, paint_zero_rate 0 scale_zero demo_rect rfl⟩

/-- C10: `paint` never divides by zero, for every state of the scale, every
rectangle and every fuel; and for a state of 32 bit values it returns its
drawing operations once the fuel is at least 10 and more than half the
sampling rate. -/
theorem paint_never_divides_by_zero :
    (∀ (fuel : Nat) (fs : FrequencyScale) (r : Rect),
      fs.paint fuel r ≠ Except.error Fault.div_by_zero) ∧
    (∀ (fuel : Nat) (fs : FrequencyScale) (r : Rect),
      fs.spectrum_sampling_rate < 2 ^ 32 → 10 ≤ fuel → fs.spectrum_sampling_rate / 2 < fuel →
      ∃ ops, fs.paint fuel r = Except.ok ops) := by
  constructor
  · intro fuel fs r
    unfold FrequencyScale.paint
    by_cases hsr : fs.spectrum_sampling_rate = 0
    · rw [if_pos hsr]
      simp
    · rw [if_neg hsr]
      obtain ⟨bands, hbands⟩ := draw_filter_ranges_some fs r hsr
      rw [hbands]
      simp only
      unfold FrequencyScale.draw_frequency_ticks normalise
      have hnorm := normalise_loop_no_div fuel (f32_div (f32_of_u32 fs.spectrum_sampling_rate) 4) 1 0
      cases hres : normalise_loop fuel (f32_div (f32_of_u32 fs.spectrum_sampling_rate) 4) 1 0 with
      | error e =>
        rw [hres] at hnorm
        simp only [ne_eq, Except.error.injEq] at hnorm ⊢
        exact hnorm
      | ok v =>
        obtain ⟨x, mag, n⟩ := v
        simp only
        have hloop := tick_loop_no_div fs r (f32_ceil x) mag n hsr fuel (f32_ceil x)
        cases hres2 : fs.tick_loop r (f32_ceil x) mag n fuel (f32_ceil x) with
        | error e =>
          rw [hres2] at hloop
          simp only [ne_eq, Except.error.injEq] at hloop ⊢
          exact hloop
        | ok ticks => simp
  · intro fuel fs r h32 hfuel hfuel2
    unfold FrequencyScale.paint
    by_cases hsr : fs.spectrum_sampling_rate = 0
    · rw [if_pos hsr]
      exact ⟨_, rfl⟩
    · rw [if_neg hsr]
      obtain ⟨bands, hbands⟩ := draw_filter_ranges_some fs r hsr
      obtain ⟨x, n, K, _, _, _, _, hticks, _, _⟩ :=
        draw_frequency_ticks_spec fuel fs r (by omega) h32 hfuel hfuel2
      rw [hbands, hticks]
      exact ⟨_, rfl⟩

/-- Witness of C10: the 20 kHz scale is painted, the scale without a sampling
rate is painted although its filter frequencies are set. -/
theorem paint_never_divides_by_zero_witness :
    (∃ ops, scale_20k.paint 10001 demo_rect = Except.ok ops) ∧
    (∃ ops, scale_zero.paint 10 demo_rect = Except.ok ops) :=
  ⟨paint_never_divides_by_zero.2 10001 scale_20k demo_rect (by decide) (by decide) (by decide),
   paint_never_divides_by_zero.2 10 scale_zero demo_rect (by decide) (by decide) (by decide)⟩

/-! ## The centre tick (C11) -/

/-- C11: for every non-zero 32 bit sampling rate and every rectangle `r`, `paint`
draws the centre tick `Rect { r.left + r.width / 2, r.top, 1, r.height }` in
white, after the background and the filter bands and before the tick pairs of
the loop; its width is 1, and its position and height are literally
`r.left + r.width / 2`, `r.top` and `r.height` when these lie in the
coordinate range. -/
theorem center_tick_first (fuel : Nat) (fs : FrequencyScale) (r : Rect)
    (h0 : 0 < fs.spectrum_sampling_rate) (h32 : fs.spectrum_sampling_rate < 2 ^ 32)
    (hfuel : 10 ≤ fuel) (hfuel2 : fs.spectrum_sampling_rate / 2 < fuel) :
    ∃ (bands : List DrawOp) (rough magnitude magnitude_n K : Nat) (tick : Rect),
      fs.draw_filter_ranges r = Except.ok bands ∧
      normalise fuel fs.spectrum_sampling_rate = Except.ok (rough, magnitude, magnitude_n) ∧
      tick = Rect.make (r.left + r.width.tdiv 2) r.top 1 r.height ∧
      fs.paint fuel r = Except.ok
        ([DrawOp.fill_rectangle r Color.black] ++ bands ++
          DrawOp.fill_rectangle tick Color.white ::
            (List.range' 1 K).flatMap (fun i =>
              tick_pair r (tick_pixels fs magnitude (i * f32_ceil rough))
                (tick_label magnitude_n (i * f32_ceil rough)))) ∧
      tick.width = 1 ∧
      (inCoord (r.left + r.width.tdiv 2) → inCoord r.top → inCoord r.height →
        tick.left = r.left + r.width.tdiv 2 ∧ tick.top = r.top ∧
        tick.height = r.height) := by
  have hsr : fs.spectrum_sampling_rate ≠ 0 := by omega
  obtain ⟨bands, hbands⟩ := draw_filter_ranges_some fs r hsr
  obtain ⟨x, n, K, hnorm, _, _, _, hdraw, _, _⟩ :=
    draw_frequency_ticks_spec fuel fs r h0 h32 hfuel hfuel2
  refine ⟨bands, x, 10 ^ n, n, K, _, hbands, hnorm, rfl, ?_, rfl, ?_⟩
  · unfold FrequencyScale.paint FrequencyScale.clear_background
    rw [if_neg hsr, hbands, hdraw]
    rfl
  · intro hc ht hh
    exact ⟨toCoord_of_inCoord hc, toCoord_of_inCoord ht, toCoord_of_inCoord hh⟩

/-- Witness of C11 at 20 kHz on the full-width rectangle: background, centre
tick at 120, then the one tick pair. -/
theorem center_tick_first_witness :
    (∃ (bands : List DrawOp) (rough magnitude magnitude_n K : Nat) (tick : Rect),
      scale_20k.draw_filter_ranges demo_rect = Except.ok bands ∧
      normalise 10001 scale_20k.spectrum_sampling_rate =
        Except.ok (rough, magnitude, magnitude_n) ∧
      tick = Rect.make (demo_rect.left + demo_rect.width.tdiv 2) demo_rect.top 1
        demo_rect.height ∧
      scale_20k.paint 10001 demo_rect = Except.ok
        ([DrawOp.fill_rectangle demo_rect Color.black] ++ bands ++
          DrawOp.fill_rectangle tick Color.white ::
            (List.range' 1 K).flatMap (fun i =>
              tick_pair demo_rect (tick_pixels scale_20k magnitude (i * f32_ceil rough))
                (tick_label magnitude_n (i * f32_ceil rough)))) ∧
      tick.width = 1 ∧
      (inCoord (demo_rect.left + demo_rect.width.tdiv 2) → inCoord demo_rect.top →
        inCoord demo_rect.height →
        tick.left = demo_rect.left + demo_rect.width.tdiv 2 ∧ tick.top = demo_rect.top ∧
        tick.height = demo_rect.height)) ∧
    scale_20k.paint 10001 demo_rect = Except.ok [
      DrawOp.fill_rectangle ⟨0, 0, 240, 20⟩ Color.black,
      DrawOp.fill_rectangle ⟨120, 0, 1, 20⟩ Color.white,
      DrawOp.fill_rectangle ⟨56, 0, 1, 20⟩ Color.white,
      DrawOp.draw_string ⟨58, 0⟩ "5k",
      DrawOp.fill_rectangle ⟨184, 0, 1, 20⟩ Color.white,
      DrawOp.draw_string ⟨186, 0⟩ "5k"] :=
  ⟨center_tick_first 10001 scale_20k demo_rect (by decide) (by decide) (by decide)
    (by decide), by decide⟩

/-! ## The setters and `clear` (C12, C13, C14) -/

/-- C12 as stated fails: a scale whose sampling rate is already 20,000 is not
marked dirty by two calls of `set_spectrum_sampling_rate` with 20,000. -/
theorem set_rate_same_value_not_dirty :
    ((scale_dirty.set_spectrum_sampling_rate 20000).set_spectrum_sampling_rate 20000).dirty =
        scale_dirty.dirty ∧
      ((scale_dirty.set_spectrum_sampling_rate 20000).set_spectrum_sampling_rate 20000).dirty ≠
        scale_dirty.dirty + 1 := by
  decide

/-- C12, amended: two calls of `set_spectrum_sampling_rate` in a row with the
same value mark the scale dirty exactly once when the value differs from the
stored sampling rate and not at all when it equals it; the second call never
changes anything, and the stored rate is the value. -/
theorem set_rate_twice (fs : FrequencyScale) (v : Nat) :
    (fs.spectrum_sampling_rate ≠ v →
      ((fs.set_spectrum_sampling_rate v).set_spectrum_sampling_rate v).dirty = fs.dirty + 1) ∧
    (fs.spectrum_sampling_rate = v →
      ((fs.set_spectrum_sampling_rate v).set_spectrum_sampling_rate v).dirty = fs.dirty) ∧
    (fs.set_spectrum_sampling_rate v).set_spectrum_sampling_rate v =
      fs.set_spectrum_sampling_rate v ∧
    ((fs.set_spectrum_sampling_rate v).set_spectrum_sampling_rate v).spectrum_sampling_rate
      = v := by
  unfold FrequencyScale.set_spectrum_sampling_rate FrequencyScale.set_dirty
  by_cases h : fs.spectrum_sampling_rate = v
  · simp [h]
  · simp [h]

/-- Witness of C12, amended: from the rate 20,000 two calls with 48,000 mark
the scale dirty once. -/
theorem set_rate_twice_witness :
    scale_dirty.spectrum_sampling_rate ≠ 48000 ∧
      ((scale_dirty.set_spectrum_sampling_rate 48000).set_spectrum_sampling_rate 48000).dirty =
        scale_dirty.dirty + 1 :=
  ⟨by decide, (set_rate_twice scale_dirty 48000).1 (by decide)⟩

/-- C13: `set_channel_filter` is a compare-and-set.  With both arguments equal
to the stored frequencies the state is unchanged (no dirty mark); otherwise the
stored frequencies become the arguments and the scale is marked dirty once.
The sampling rate (and the constants) are unchanged, and a second call with
the same arguments changes nothing. -/
theorem set_channel_filter_compare_and_set (fs : FrequencyScale) (pass stop : Nat) :
    (fs.channel_filter_pass_frequency = pass ∧ fs.channel_filter_stop_frequency = stop →
      fs.set_channel_filter pass stop = fs) ∧
    (¬ (fs.channel_filter_pass_frequency = pass ∧ fs.channel_filter_stop_frequency = stop) →
      (fs.set_channel_filter pass stop).channel_filter_pass_frequency = pass ∧
      (fs.set_channel_filter pass stop).channel_filter_stop_frequency = stop ∧
      (fs.set_channel_filter pass stop).dirty = fs.dirty + 1) ∧
    (fs.set_channel_filter pass stop).spectrum_sampling_rate = fs.spectrum_sampling_rate ∧
    (fs.set_channel_filter pass stop).spectrum_bins = fs.spectrum_bins ∧
    (fs.set_channel_filter pass stop).filter_band_height = fs.filter_band_height ∧
    (fs.set_channel_filter pass stop).set_channel_filter pass stop =
      fs.set_channel_filter pass stop := by
  unfold FrequencyScale.set_channel_filter FrequencyScale.set_dirty
  by_cases hp : fs.channel_filter_pass_frequency = pass
  · by_cases hs : fs.channel_filter_stop_frequency = stop
    · simp [hp, hs]
    · simp [hp, hs]
  · simp [hp]

/-- Witness of C13: from no filter to a pass band of 1 MHz and a stop band of
2 MHz the scale is marked dirty once; repeating the call leaves it so. -/
theorem set_channel_filter_compare_and_set_witness :
    (scale_dirty.set_channel_filter 1000000 2000000).dirty = scale_dirty.dirty + 1 ∧
    (scale_dirty.set_channel_filter 0 0) = scale_dirty :=
  ⟨((set_channel_filter_compare_and_set scale_dirty 1000000 2000000).2.1 (by decide)).2.2,
   (set_channel_filter_compare_and_set scale_dirty 0 0).1 (by decide)⟩

/-- C14 as stated fails: `clear` (and `on_show`) of the 8 MHz scale leaves the
pass frequency 1,000,000 and the stop frequency 2,000,000. -/
theorem clear_keeps_filter :
    scale_8M.clear.channel_filter_pass_frequency = 1000000 ∧
      scale_8M.clear.channel_filter_stop_frequency = 2000000 ∧
      scale_8M.on_show.channel_filter_pass_frequency ≠ 0 ∧
      scale_8M.on_show.channel_filter_stop_frequency ≠ 0 := by
  decide

/-- C14, amended: after `clear` (and therefore after `on_show`) the sampling
rate is 0, whatever it was, the scale is marked dirty once, and the filter
frequencies are what they were. -/
theorem clear_resets_rate (fs : FrequencyScale) :
    fs.clear.spectrum_sampling_rate = 0 ∧
    fs.clear.channel_filter_pass_frequency = fs.channel_filter_pass_frequency ∧
    fs.clear.channel_filter_stop_frequency = fs.channel_filter_stop_frequency ∧
    fs.clear.dirty = fs.dirty + 1 ∧
    fs.on_show = fs.clear := by
  unfold FrequencyScale.on_show FrequencyScale.clear FrequencyScale.set_dirty
  simp

/-! ## The layout of the widget (C16) -/

/-- C16: for a parent rectangle of width `w` and height `h ≥ 20` (both in the
coordinate range), `set_parent_rect` gives the frequency scale the rectangle
`(0, 0, w, 20)` and the waterfall view the rectangle `(0, 20, w, h - 20)`;
no point lies in both, and a point lies in one of them exactly when it lies
in `(0, 0, w, h)`. -/
theorem set_parent_rect_partition (w : WaterfallWidget) (new_parent_rect : Rect)
    (hw : inCoord new_parent_rect.width) (hh : inCoord new_parent_rect.height)
    (h20 : 20 ≤ new_parent_rect.height) :
    (w.set_parent_rect new_parent_rect).frequency_scale_rect =
        ⟨0, 0, new_parent_rect.width, 20⟩ ∧
    (w.set_parent_rect new_parent_rect).waterfall_view_rect =
        ⟨0, 20, new_parent_rect.width, new_parent_rect.height - 20⟩ ∧
    (w.set_parent_rect new_parent_rect).parent_rect = new_parent_rect ∧
    (∀ x y : Int,
      ¬ ((w.set_parent_rect new_parent_rect).frequency_scale_rect.contains x y ∧
         (w.set_parent_rect new_parent_rect).waterfall_view_rect.contains x y)) ∧
    (∀ x y : Int,
      (Rect.mk 0 0 new_parent_rect.width new_parent_rect.height).contains x y ↔
        ((w.set_parent_rect new_parent_rect).frequency_scale_rect.contains x y ∨
         (w.set_parent_rect new_parent_rect).waterfall_view_rect.contains x y)) := by
  have e0 : toCoord 0 = 0 := by decide
  have e20 : toCoord 20 = 20 := by decide
  have ew := toCoord_of_inCoord hw
  have eh : toCoord (new_parent_rect.height - 20) = new_parent_rect.height - 20 := by
    apply toCoord_of_inCoord
    unfold inCoord at hh ⊢
    omega
  have hscale : (w.set_parent_rect new_parent_rect).frequency_scale_rect =
      ⟨0, 0, new_parent_rect.width, 20⟩ := by
    simp only [WaterfallWidget.set_parent_rect, Rect.make, e0, e20, ew]
  have hview : (w.set_parent_rect new_parent_rect).waterfall_view_rect =
      ⟨0, 20, new_parent_rect.width, new_parent_rect.height - 20⟩ := by
    simp only [WaterfallWidget.set_parent_rect, Rect.make, e0, e20, ew, eh]
  rw [hscale, hview]
  refine ⟨rfl, rfl, rfl, ?_, ?_⟩
  · intro x y
    simp only [Rect.contains, Rect.left, Rect.right, Rect.top, Rect.bottom]
    omega
  · intro x y
    simp only [Rect.contains, Rect.left, Rect.right, Rect.top, Rect.bottom]
    omega

/-- Witness of C16 on a widget of 240 by 320 pixels. -/
theorem set_parent_rect_partition_witness :
    (demo_widget.set_parent_rect ⟨0, 0, 240, 320⟩).frequency_scale_rect = ⟨0, 0, 240, 20⟩ ∧
    (demo_widget.set_parent_rect ⟨0, 0, 240, 320⟩).waterfall_view_rect = ⟨0, 20, 240, 300⟩ :=
  ⟨(set_parent_rect_partition demo_widget ⟨0, 0, 240, 320⟩ (by decide) (by decide)
      (by decide)).1,
   (set_parent_rect_partition demo_widget ⟨0, 0, 240, 320⟩ (by decide) (by decide)
      (by decide)).2.1⟩

/-! ## The frame handler (C15) -/

theorem waterfall_view_some (lut : List Color) (spectrum : ChannelSpectrum)
    (uninit : Nat → Color) (draw_y : Int)
    (hlut : lut.length = 256) (hlen : spectrum.db.length = 256)
    (hbyte : ∀ b ∈ spectrum.db, b < 256) :
    ∃ row, build_pixel_row lut spectrum uninit = some row ∧
      WaterfallView.on_channel_spectrum lut spectrum uninit draw_y =
        some [DrawOp.scroll 1, DrawOp.draw_pixels (Rect.make 0 draw_y 240 1) row] := by
  obtain ⟨row, hrow, hl, _, _⟩ := build_pixel_row_spec lut spectrum uninit hlut hlen hbyte
  refine ⟨row, hrow, ?_⟩
  simp only [WaterfallView.on_channel_spectrum, hrow, hl]
  rfl

theorem drain_spec (env : Surroundings) (hlut : env.lut.length = 256) :
    ∀ (frames : List ChannelSpectrum) (fuel : Nat) (w : WaterfallWidget),
      frames.length < fuel →
      (∀ f ∈ frames, f.db.length = 256 ∧ ∀ b ∈ f.db, b < 256) →
      ∃ (w1 : WaterfallWidget) (ops : List DrawOp),
        WaterfallWidget.drain env fuel w frames = Except.ok w1 ∧
        w1.fifo = some [] ∧
        List.foldlM (fun a f => WaterfallWidget.on_channel_spectrum env a f)
          { w with fifo := some [] } frames = Except.ok w1 ∧
        w1.frequency_scale = frames.foldl (fun fs f =>
          (fs.set_spectrum_sampling_rate f.sampling_rate).set_channel_filter
            f.channel_filter_pass_frequency f.channel_filter_stop_frequency)
          w.frequency_scale ∧
        w1.display = w.display ++ ops ∧
        ops.length = 2 * frames.length ∧
        ops.filterMap pixels_of =
          frames.filterMap (fun f => build_pixel_row env.lut f env.uninit) := by
  intro frames
  induction frames with
  | nil =>
    intro fuel w hfuel _
    obtain ⟨k, rfl⟩ : ∃ k, fuel = k + 1 := ⟨fuel - 1, by simp at hfuel; omega⟩
    refine ⟨{ w with fifo := some [] }, [], ?_, rfl, ?_, rfl, ?_, rfl, rfl⟩
    · simp [WaterfallWidget.drain, fifo_out]
    · rfl
    · simp
  | cons f rest ih =>
    intro fuel w hfuel hwf
    obtain ⟨k, rfl⟩ : ∃ k, fuel = k + 1 := ⟨fuel - 1, by simp at hfuel; omega⟩
    obtain ⟨hf1, hf2⟩ := hwf f (List.mem_cons_self f rest)
    obtain ⟨row, hrow, hview⟩ :=
      waterfall_view_some env.lut f env.uninit (env.scroll_y w.display) hlut hf1 hf2
    have hstep : ∀ q, WaterfallWidget.on_channel_spectrum env { w with fifo := q } f =
        Except.ok { w with
          fifo := q,
          display := w.display ++
            [DrawOp.scroll 1,
             DrawOp.draw_pixels (Rect.make 0 (env.scroll_y w.display) 240 1) row],
          frequency_scale :=
            (w.frequency_scale.set_spectrum_sampling_rate f.sampling_rate).set_channel_filter
              f.channel_filter_pass_frequency f.channel_filter_stop_frequency } := by
      intro q
      simp only [WaterfallWidget.on_channel_spectrum, hview]
    obtain ⟨w1, ops, hrun, hfifo, hfold, hscale, hdisp, hlen, hrows⟩ :=
      ih k
        { w with
          fifo := some rest,
          display := w.display ++
            [DrawOp.scroll 1,
             DrawOp.draw_pixels (Rect.make 0 (env.scroll_y w.display) 240 1) row],
          frequency_scale :=
            (w.frequency_scale.set_spectrum_sampling_rate f.sampling_rate).set_channel_filter
              f.channel_filter_pass_frequency f.channel_filter_stop_frequency }
        (by simp at hfuel ⊢; omega)
        (fun g hg => hwf g (List.mem_cons_of_mem f hg))
    refine ⟨w1, [DrawOp.scroll 1,
      DrawOp.draw_pixels (Rect.make 0 (env.scroll_y w.display) 240 1) row] ++ ops,
      ?_, hfifo, ?_, ?_, ?_, ?_, ?_⟩
    · simp only [WaterfallWidget.drain, fifo_out, hstep]
      exact hrun
    · rw [List.foldlM_cons, hstep]
      exact hfold
    · rw [hscale]
      rfl
    · rw [hdisp]
      simp
    · simp only [List.length_append, List.length_cons, List.length_nil, hlen]
      omega
    · simp only [List.filterMap_append, List.filterMap_cons, hrows, hrow, pixels_of,
        List.filterMap_nil, List.nil_append, List.cons_append]

/-- C15: on a frame-sync notification with a FIFO holding the frames
`f1 .. fn` (each of 256 bytes, colour table of 256 entries, fuel above `n`), the
handler returns with the FIFO empty, having passed every frame in FIFO order
to `WaterfallWidget::on_channel_spectrum`: the display has received one
scroll and one pixel row per frame, the rows of `f1 .. fn` in this order, and
the frequency scale has received `set_spectrum_sampling_rate` and
`set_channel_filter` with the fields of `f1 .. fn` in this order.  Without a
FIFO the widget is unchanged. -/
theorem frame_sync_drains (env : Surroundings) (fuel : Nat) (w : WaterfallWidget) :
    (w.fifo = none → w.on_display_frame_sync env fuel = Except.ok w) ∧
    (∀ frames : List ChannelSpectrum, w.fifo = some frames →
      env.lut.length = 256 →
      (∀ f ∈ frames, f.db.length = 256 ∧ ∀ b ∈ f.db, b < 256) →
      frames.length < fuel →
      ∃ (w1 : WaterfallWidget) (ops : List DrawOp),
        w.on_display_frame_sync env fuel = Except.ok w1 ∧
        w1.fifo = some [] ∧
        List.foldlM (fun a f => WaterfallWidget.on_channel_spectrum env a f)
          { w with fifo := some [] } frames = Except.ok w1 ∧
        w1.frequency_scale = frames.foldl (fun fs f =>
          (fs.set_spectrum_sampling_rate f.sampling_rate).set_channel_filter
            f.channel_filter_pass_frequency f.channel_filter_stop_frequency)
          w.frequency_scale ∧
        w1.display = w.display ++ ops ∧
        ops.length = 2 * frames.length ∧
        ops.filterMap pixels_of =
          frames.filterMap (fun f => build_pixel_row env.lut f env.uninit)) := by
  constructor
  · intro hnone
    unfold WaterfallWidget.on_display_frame_sync
    rw [hnone]
  · intro frames hsome hlut hwf hfuel
    unfold WaterfallWidget.on_display_frame_sync
    rw [hsome]
    exact drain_spec env hlut frames fuel w hfuel hwf

/-- Witness of C15: two frames in the FIFO, the ramp at 1 MHz and then the flat
frame at 8 MHz with its filter; afterwards the FIFO is empty, the display has
received four operations and the scale holds the values of the second frame. -/
theorem frame_sync_drains_witness :
    (∃ (w1 : WaterfallWidget) (ops : List DrawOp),
        ({ demo_widget with fifo := some [ramp_frame, flat_frame] }).on_display_frame_sync
          demo_env 3 = Except.ok w1 ∧
        w1.fifo = some [] ∧
        List.foldlM (fun a f => WaterfallWidget.on_channel_spectrum demo_env a f)
          { ({ demo_widget with fifo := some [ramp_frame, flat_frame] }) with fifo := some [] }
          [ramp_frame, flat_frame] = Except.ok w1 ∧
        w1.frequency_scale = [ramp_frame, flat_frame].foldl (fun fs f =>
          (fs.set_spectrum_sampling_rate f.sampling_rate).set_channel_filter
            f.channel_filter_pass_frequency f.channel_filter_stop_frequency)
          ({ demo_widget with fifo := some [ramp_frame, flat_frame] }).frequency_scale ∧
        w1.display =
          ({ demo_widget with fifo := some [ramp_frame, flat_frame] }).display ++ ops ∧
        ops.length = 2 * [ramp_frame, flat_frame].length ∧
        ops.filterMap pixels_of =
          [ramp_frame, flat_frame].filterMap
            (fun f => build_pixel_row demo_env.lut f demo_env.uninit)) ∧
    [ramp_frame, flat_frame].foldl (fun fs f =>
        (fs.set_spectrum_sampling_rate f.sampling_rate).set_channel_filter
          f.channel_filter_pass_frequency f.channel_filter_stop_frequency) scale_zero =
      ⟨8000000, 256, 1000000, 2000000, 4, 4⟩ :=
  ⟨(frame_sync_drains demo_env 3
      { demo_widget with fifo := some [ramp_frame, flat_frame] }).2
      [ramp_frame, flat_frame] rfl
      (by unfold demo_env ramp_lut; rw [List.length_map, List.length_range])
      (by
        intro f hf
        simp only [List.mem_cons, List.mem_singleton, List.not_mem_nil, or_false] at hf
        rcases hf with rfl | rfl
        · refine ⟨by rw [ramp_frame_db]; unfold ramp_db; rw [List.length_range], ?_⟩
          intro b hb
          rw [ramp_frame_db] at hb
          unfold ramp_db at hb
          exact List.mem_range.mp hb
        · refine ⟨List.length_replicate 256 0, ?_⟩
          intro b hb
          have := List.eq_of_mem_replicate hb
          omega)
      (by decide),
   by decide⟩

/-! ## Bounds and initialisation of the pixel row (C20) -/

theorem perform_eq (lut : List Color) (db : List Nat) (row : List Color) (i k : Nat) :
    perform lut db row (i, k) =
      match lut_of_bin lut db k with
      | none => none
      | some c => store row i c := rfl

theorem row_loop_accesses (lut : List Color) (db : List Nat) (src : Nat → Nat) :
    ∀ (n i : Nat) (row : List Color),
      row_loop lut db src n i row = List.foldlM (perform lut db) row (row_accesses src n i) := by
  intro n
  induction n with
  | zero =>
    intro i row
    rfl
  | succ n ih =>
    intro i row
    rw [row_loop, row_accesses, List.foldlM_cons, perform_eq]
    cases hc : lut_of_bin lut db (src i) with
    | none => rfl
    | some c =>
      simp only
      cases hs : store row i c with
      | none => rfl
      | some row1 => exact ih (i + 1) row1

theorem build_pixel_row_accesses (lut : List Color) (spectrum : ChannelSpectrum)
    (uninit : Nat → Color) :
    build_pixel_row lut spectrum uninit =
      List.foldlM (perform lut spectrum.db) ((List.range 240).map uninit)
        pixel_row_accesses := by
  unfold build_pixel_row pixel_row_accesses
  rw [List.foldlM_append, ← row_loop_accesses]
  simp only
  cases h1 : row_loop lut spectrum.db (fun i => 256 - 120 + i) 120 0
      ((List.range 240).map uninit) with
  | none => rfl
  | some row1 => exact row_loop_accesses lut spectrum.db _ 120 120 row1

/-- C20: the two loops of `WaterfallView::on_channel_spectrum` carry out the
accesses `pixel_row_accesses` in order.  The indices written are
`0, 1, ..., 239`, each once; the bin read for the index `i` is `256 - 120 + i`
for `i < 120` and `i - 120` otherwise, it is below 256, no bin is read twice,
and the bins never read are exactly `120 .. 135`.  For a frame of 256 bytes
and a colour table of 256 entries every access is in bounds (the byte read is
an index of the table), the row is produced and does not depend on what
`pixel_row` held before. -/
theorem pixel_row_in_bounds (lut : List Color) (spectrum : ChannelSpectrum)
    (uninit : Nat → Color)
    (hlut : lut.length = 256) (hlen : spectrum.db.length = 256)
    (hbyte : ∀ b ∈ spectrum.db, b < 256) :
    build_pixel_row lut spectrum uninit =
      List.foldlM (perform lut spectrum.db) ((List.range 240).map uninit)
        pixel_row_accesses ∧
    pixel_row_accesses.map Prod.fst = List.range 240 ∧
    (∀ a ∈ pixel_row_accesses,
      a.2 = (if a.1 < 120 then 256 - 120 + a.1 else a.1 - 120) ∧ a.2 < 256 ∧
      ∃ b, spectrum.db[a.2]? = some b ∧ b < 256 ∧ ∃ c, lut[b]? = some c) ∧
    (pixel_row_accesses.map Prod.snd).Nodup ∧
    (∀ k, k < 256 → (k ∉ pixel_row_accesses.map Prod.snd ↔ 120 ≤ k ∧ k < 136)) ∧
    (∃ row, build_pixel_row lut spectrum uninit = some row ∧ row.length = 240 ∧
      ∀ uninit2 : Nat → Color, build_pixel_row lut spectrum uninit2 = some row) := by
  have hacc : ∀ a ∈ pixel_row_accesses,
      a.2 = (if a.1 < 120 then 256 - 120 + a.1 else a.1 - 120) ∧ a.2 < 256 := by
    decide
  refine ⟨build_pixel_row_accesses lut spectrum uninit, by decide, ?_, by decide, by decide, ?_⟩
  · intro a ha
    obtain ⟨h1, h2⟩ := hacc a ha
    have hk : a.2 < spectrum.db.length := by omega
    have hb : spectrum.db[a.2] < 256 := hbyte _ (List.getElem_mem hk)
    have hb2 : spectrum.db[a.2] < lut.length := by omega
    exact ⟨h1, h2, spectrum.db[a.2], List.getElem?_eq_getElem hk, hb,
      lut[spectrum.db[a.2]], List.getElem?_eq_getElem hb2⟩
  · obtain ⟨row, hrow, hl, hlo, hhi⟩ :=
      build_pixel_row_spec lut spectrum uninit hlut hlen hbyte
    refine ⟨row, hrow, hl, ?_⟩
    intro uninit2
    obtain ⟨row2, hrow2, hl2, hlo2, hhi2⟩ :=
      build_pixel_row_spec lut spectrum uninit2 hlut hlen hbyte
    rw [hrow2]
    congr 1
    apply List.ext_getElem?
    intro i
    by_cases h240 : i < 240
    · by_cases h120 : i < 120
      · rw [hlo2 i h120, hlo i h120]
      · rw [hhi2 i (by omega) h240, hhi i (by omega) h240]
    · rw [List.getElem?_eq_none (by omega), List.getElem?_eq_none (by omega)]

/-- Witness of C20 on the ramp frame. -/
theorem pixel_row_in_bounds_witness :
    ∃ row, build_pixel_row ramp_lut ramp_frame (fun _ => Color.black) = some row ∧
      row.length = 240 ∧
      ∀ uninit2 : Nat → Color, build_pixel_row ramp_lut ramp_frame uninit2 = some row :=
  (pixel_row_in_bounds ramp_lut ramp_frame (fun _ => Color.black)
    (by unfold ramp_lut; rw [List.length_map, List.length_range])
    (by rw [ramp_frame_db]; unfold ramp_db; rw [List.length_range])
    (by
      intro b hb
      rw [ramp_frame_db] at hb
      unfold ramp_db at hb
      exact List.mem_range.mp hb)).2.2.2.2.2

/-! ## Termination of the tick computation (C19) -/

theorem normalise_range (fuel sr : Nat) (h0 : 0 < sr) (h32 : sr < 2 ^ 32) (hfuel : 10 ≤ fuel) :
    ∃ x n, normalise fuel sr = Except.ok (x, 10 ^ n, n) ∧ 0 < x ∧ x < 10 * F32_ONE := by
  have hup : f32_div (f32_of_u32 sr) 4 ≤ rough_bound 0 := by
    rw [← f32_quarter_top]
    exact f32_div_mono 4 (f32_of_u32_mono (by omega))
  have hlow : 0 < f32_div (f32_of_u32 sr) 4 := by
    have h1 : f32_div (f32_of_u32 1) 4 ≤ f32_div (f32_of_u32 sr) 4 :=
      f32_div_mono 4 (f32_of_u32_mono (by omega))
    rw [f32_quarter_one] at h1
    omega
  obtain ⟨x, n, hrun, _, hx0, hx10, _⟩ :=
    normalise_loop_spec fuel (f32_div (f32_of_u32 sr) 4) 0 (by omega) hup hlow (by omega)
  exact ⟨x, n, hrun, hx0, hx10⟩

theorem tick_pairs_length (r : Rect) (p : Nat → Int) (label : Nat → String) (l : List Nat) :
    (l.flatMap (fun i => tick_pair r (p i) (label i))).length = 4 * l.length := by
  induction l with
  | nil => rfl
  | cons a l ih =>
    rw [List.flatMap_cons, List.length_append, ih, List.length_cons]
    simp only [tick_pair, List.length_cons, List.length_nil]
    omega

/-- C19: for every non-zero 32 bit sampling rate `draw_frequency_ticks` returns
(fuel at least 10 and more than half the rate).  The normalisation ends with a
rough interval in `(0, 10)`, `tick_interval` is at least 1, the offsets
`i * tick_interval` increase strictly, the products `tick_offset * magnitude`
stay below `2 ^ 32` up to and including the one that ends the loop, and that
one is not below `sampling_rate / 2`; the loop body runs `K` times, at most
half the rate. -/
theorem draw_frequency_ticks_terminates (fuel : Nat) (fs : FrequencyScale) (r : Rect)
    (h0 : 0 < fs.spectrum_sampling_rate) (h32 : fs.spectrum_sampling_rate < 2 ^ 32)
    (hfuel : 10 ≤ fuel) (hfuel2 : fs.spectrum_sampling_rate / 2 < fuel) :
    ∃ (rough magnitude magnitude_n K : Nat) (ops : List DrawOp),
      normalise fuel fs.spectrum_sampling_rate = Except.ok (rough, magnitude, magnitude_n) ∧
      0 < rough ∧ rough < 10 * F32_ONE ∧
      1 ≤ f32_ceil rough ∧
      fs.draw_frequency_ticks fuel r = Except.ok ops ∧
      ops.length = 1 + 4 * K ∧
      K ≤ fs.spectrum_sampling_rate / 2 ∧
      (∀ i, i * f32_ceil rough < (i + 1) * f32_ceil rough) ∧
      (∀ i, 1 ≤ i → i ≤ K + 1 → (i * f32_ceil rough) * magnitude < 2 ^ 32) ∧
      (∀ i, 1 ≤ i → i ≤ K →
        (i * f32_ceil rough) * magnitude < fs.spectrum_sampling_rate / 2) ∧
      fs.spectrum_sampling_rate / 2 ≤ ((K + 1) * f32_ceil rough) * magnitude := by
  obtain ⟨x, n, K, hnorm, hn, hti1, hti10, hdraw, hall, hstop⟩ :=
    draw_frequency_ticks_spec fuel fs r h0 h32 hfuel hfuel2
  obtain ⟨x2, n2, hnorm2, hx0, hx10⟩ :=
    normalise_range fuel fs.spectrum_sampling_rate h0 h32 hfuel
  obtain ⟨x3, n3, hnorm3, _, _, _, hP⟩ :=
    normalise_spec fuel fs.spectrum_sampling_rate h0 h32 hfuel
  rw [hnorm] at hnorm2 hnorm3
  simp only [Except.ok.injEq, Prod.mk.injEq] at hnorm2 hnorm3
  obtain ⟨hxx, _, hnn⟩ := hnorm2
  obtain ⟨hxx3, _, hnn3⟩ := hnorm3
  subst hxx hnn
  subst hxx3 hnn3
  have hmag : 1 ≤ 10 ^ n := Nat.one_le_pow _ _ (by omega)
  have hmono : ∀ i j, i ≤ j → i * f32_ceil x * 10 ^ n ≤ j * f32_ceil x * 10 ^ n := by
    intro i j hij
    exact Nat.mul_le_mul_right _ (Nat.mul_le_mul_right _ hij)
  have hstep : (K + 1) * f32_ceil x * 10 ^ n =
      K * f32_ceil x * 10 ^ n + f32_ceil x * 10 ^ n := by ring
  have hK : K * f32_ceil x * 10 ^ n ≤ fs.spectrum_sampling_rate / 2 := by
    by_cases hK0 : K = 0
    · subst hK0
      simp
    · exact le_of_lt (hall K (by omega) (le_refl K))
  have hKle : K ≤ K * f32_ceil x * 10 ^ n := by
    calc K = K * 1 * 1 := by simp
      _ ≤ K * f32_ceil x * 10 ^ n := Nat.mul_le_mul (Nat.mul_le_mul_left _ hti1) hmag
  refine ⟨x, 10 ^ n, n, K, _, hnorm, hx0, hx10, hti1, hdraw, ?_, by omega, ?_, ?_, hall,
    by omega⟩
  · rw [List.length_cons, tick_pairs_length, List.length_range']
    omega
  · intro i
    have : (i + 1) * f32_ceil x = i * f32_ceil x + f32_ceil x := by ring
    omega
  · intro i _ hi2
    have := hmono i (K + 1) hi2
    omega

/-- Witness of C19 at 20 kHz. -/
theorem draw_frequency_ticks_terminates_witness :
    ∃ (rough magnitude magnitude_n K : Nat) (ops : List DrawOp),
      normalise 10001 scale_20k.spectrum_sampling_rate =
        Except.ok (rough, magnitude, magnitude_n) ∧
      0 < rough ∧ rough < 10 * F32_ONE ∧
      1 ≤ f32_ceil rough ∧
      scale_20k.draw_frequency_ticks 10001 demo_rect = Except.ok ops ∧
      ops.length = 1 + 4 * K ∧
      K ≤ scale_20k.spectrum_sampling_rate / 2 ∧
      (∀ i, i * f32_ceil rough < (i + 1) * f32_ceil rough) ∧
      (∀ i, 1 ≤ i → i ≤ K + 1 → (i * f32_ceil rough) * magnitude < 2 ^ 32) ∧
      (∀ i, 1 ≤ i → i ≤ K →
        (i * f32_ceil rough) * magnitude < scale_20k.spectrum_sampling_rate / 2) ∧
      scale_20k.spectrum_sampling_rate / 2 ≤ ((K + 1) * f32_ceil rough) * magnitude :=
  draw_frequency_ticks_terminates 10001 scale_20k demo_rect (by decide) (by decide)
    (by decide) (by decide)

/-! ## The number of tick pairs (C18) -/

theorem rne_lower (a b : Nat) (hb : 0 < b) : 2 * a ≤ 2 * (rne a b * b) + b := by
  have h1 := Nat.div_add_mod a b
  have h2 := Nat.mod_lt a hb
  have e1 : a / b * b = b * (a / b) := Nat.mul_comm _ _
  have e2 : (a / b + 1) * b = b * (a / b) + b := by ring
  unfold rne
  split_ifs
  · rw [e1]
    omega
  · rw [e2]
    omega
  · rw [e1]
    omega
  · rw [e2]
    omega

theorem ilog2_two_pow_23 : ilog2 (2 ^ 23) (2 ^ 23) = 23 := by decide

/-- The relative error of the rounding: a binary32 value of at least `1/4` is
not below `63/64` of the quotient it rounds. -/
theorem f32_round_lower (a b : Nat) (hb : 0 < b) (h : 2 ^ 23 ≤ a / b) :
    63 * a ≤ 64 * (f32_round a b * b) := by
  have he : 23 ≤ ilog2 (a / b) (a / b) := by
    rw [← ilog2_two_pow_23]
    exact ilog2_mono h
  have hn0 : a / b ≠ 0 := by
    have : 0 < 2 ^ 23 := by norm_num
    omega
  have hlow := (ilog2_spec (a / b) (a / b) (le_refl _) hn0).1
  have hmul : a / b * b ≤ a := Nat.div_mul_le_self a b
  unfold f32_round f32_ulp
  generalize ilog2 (a / b) (a / b) = e at he hlow
  have hsplit : 2 ^ e = 2 ^ 23 * 2 ^ (e - 23) := by
    rw [← pow_add]
    congr 1
    omega
  have hu : 0 < 2 ^ (e - 23) := Nat.pow_pos (by omega)
  have hB : 2 ^ 23 * (b * 2 ^ (e - 23)) ≤ a := by
    calc 2 ^ 23 * (b * 2 ^ (e - 23)) = 2 ^ e * b := by rw [hsplit]; ring
      _ ≤ a / b * b := Nat.mul_le_mul_right _ hlow
      _ ≤ a := hmul
  have hr := rne_lower a (b * 2 ^ (e - 23)) (Nat.mul_pos hb hu)
  have hassoc : 2 ^ (e - 23) * rne a (b * 2 ^ (e - 23)) * b =
      rne a (b * 2 ^ (e - 23)) * (b * 2 ^ (e - 23)) := by ring
  rw [hassoc]
  generalize rne a (b * 2 ^ (e - 23)) * (b * 2 ^ (e - 23)) = F at hr
  generalize b * 2 ^ (e - 23) = B at hB hr
  omega

theorem f32_of_u32_one : f32_of_u32 1 = F32_ONE := by decide

theorem f32_ceil_ge {x : Nat} (h : x < 10 * F32_ONE) : x ≤ f32_ceil x * F32_ONE := by
  unfold f32_ceil
  unfold F32_ONE at *
  omega

theorem normalise_loop_lower (S : Nat) : ∀ (fuel x k : Nat), k ≤ 9 → x ≤ rough_bound k → 0 < x →
    10 ≤ fuel + k →
    63 ^ (k + 2) * S ≤ 64 ^ (k + 2) * (x * (4 * 10 ^ k)) →
    ∃ x1 k1, normalise_loop fuel x (10 ^ k) k = Except.ok (x1, 10 ^ k1, k1) ∧
      k1 ≤ 9 ∧ x1 < 10 * F32_ONE ∧
      63 ^ (k1 + 2) * S ≤ 64 ^ (k1 + 2) * (x1 * (4 * 10 ^ k1)) := by
  intro fuel
  induction fuel with
  | zero =>
    intro x k h1 _ _ h4 _
    omega
  | succ fuel ih =>
    intro x k hk hx hpos hfuel hinv
    unfold normalise_loop
    by_cases hten : 10 * F32_ONE ≤ x
    · rw [if_pos hten]
      have hk8 : k ≤ 8 := by
        by_contra h9
        have h9' : k = 9 := by omega
        subst h9'
        have := rough_bound_nine
        omega
      have hmag : (10 ^ k * 10) % 2 ^ 32 = 10 ^ (k + 1) := by
        rw [← pow_succ]
        apply Nat.mod_eq_of_lt
        calc 10 ^ (k + 1) ≤ 10 ^ 9 := Nat.pow_le_pow_right (by omega) (by omega)
          _ < 2 ^ 32 := by norm_num
      have hcnt : (k + 1) % 2 ^ 32 = k + 1 := Nat.mod_eq_of_lt (by omega)
      rw [hmag, hcnt]
      have hone : F32_ONE ≤ f32_div x 10 := by
        rw [← f32_div_ten_one]
        exact f32_div_mono 10 hten
      have hpos1 : 0 < f32_div x 10 := by
        unfold F32_ONE at hone
        omega
      have hq : 2 ^ 23 ≤ x / 10 := by
        unfold F32_ONE at hten
        omega
      have hstep : 63 * x ≤ 64 * (f32_div x 10 * 10) := f32_round_lower x 10 (by omega) hq
      have hinv1 : 63 ^ (k + 1 + 2) * S ≤
          64 ^ (k + 1 + 2) * (f32_div x 10 * (4 * 10 ^ (k + 1))) := by
        calc 63 ^ (k + 1 + 2) * S = 63 * (63 ^ (k + 2) * S) := by ring
          _ ≤ 63 * (64 ^ (k + 2) * (x * (4 * 10 ^ k))) := Nat.mul_le_mul_left _ hinv
          _ = 64 ^ (k + 2) * (4 * 10 ^ k) * (63 * x) := by ring
          _ ≤ 64 ^ (k + 2) * (4 * 10 ^ k) * (64 * (f32_div x 10 * 10)) :=
            Nat.mul_le_mul_left _ hstep
          _ = 64 ^ (k + 1 + 2) * (f32_div x 10 * (4 * 10 ^ (k + 1))) := by ring
      exact ih (f32_div x 10) (k + 1) (by omega) (f32_div_mono 10 hx) hpos1 (by omega) hinv1
    · rw [if_neg hten]
      exact ⟨x, k, rfl, hk, by omega, hinv⟩

/-- The interval found by the normalisation is not much below a quarter of the
rate: `sampling_rate ≤ 5 * tick_interval * magnitude`. -/
theorem normalise_quarter (fuel sr : Nat) (h0 : 0 < sr) (h32 : sr < 2 ^ 32) (hfuel : 10 ≤ fuel) :
    ∃ x n, normalise fuel sr = Except.ok (x, 10 ^ n, n) ∧ sr ≤ 5 * (f32_ceil x * 10 ^ n) := by
  have hup : f32_div (f32_of_u32 sr) 4 ≤ rough_bound 0 := by
    rw [← f32_quarter_top]
    exact f32_div_mono 4 (f32_of_u32_mono (by omega))
  have hlow : 0 < f32_div (f32_of_u32 sr) 4 := by
    have h1 : f32_div (f32_of_u32 1) 4 ≤ f32_div (f32_of_u32 sr) 4 :=
      f32_div_mono 4 (f32_of_u32_mono (by omega))
    rw [f32_quarter_one] at h1
    omega
  have hy1 : F32_ONE ≤ f32_of_u32 sr := by
    rw [← f32_of_u32_one]
    exact f32_of_u32_mono (by omega)
  have hsONE : F32_ONE ≤ sr * F32_ONE := Nat.le_mul_of_pos_left _ h0
  have hconv : 63 * (sr * F32_ONE) ≤ 64 * (f32_of_u32 sr * 1) :=
    f32_round_lower (sr * F32_ONE) 1 (by omega) (by
      rw [Nat.div_one]
      unfold F32_ONE at hsONE ⊢
      omega)
  have hquart : 63 * f32_of_u32 sr ≤ 64 * (f32_div (f32_of_u32 sr) 4 * 4) :=
    f32_round_lower (f32_of_u32 sr) 4 (by omega) (by
      unfold F32_ONE at hy1
      omega)
  have hinv0 : 63 ^ (0 + 2) * (sr * F32_ONE) ≤
      64 ^ (0 + 2) * (f32_div (f32_of_u32 sr) 4 * (4 * 10 ^ 0)) := by
    norm_num
    omega
  obtain ⟨x, n, hrun, hn, hx10, hinv⟩ :=
    normalise_loop_lower (sr * F32_ONE) fuel (f32_div (f32_of_u32 sr) 4) 0 (by omega) hup hlow
      (by omega) hinv0
  refine ⟨x, n, hrun, ?_⟩
  have hceil := f32_ceil_ge hx10
  have hchain : 63 ^ (n + 2) * sr * F32_ONE ≤
      64 ^ (n + 2) * 4 * (f32_ceil x * 10 ^ n) * F32_ONE := by
    calc 63 ^ (n + 2) * sr * F32_ONE = 63 ^ (n + 2) * (sr * F32_ONE) := by ring
      _ ≤ 64 ^ (n + 2) * (x * (4 * 10 ^ n)) := hinv
      _ ≤ 64 ^ (n + 2) * (f32_ceil x * F32_ONE * (4 * 10 ^ n)) :=
        Nat.mul_le_mul_left _ (Nat.mul_le_mul_right _ hceil)
      _ = 64 ^ (n + 2) * 4 * (f32_ceil x * 10 ^ n) * F32_ONE := by ring
  have hcancel : 63 ^ (n + 2) * sr ≤ 64 ^ (n + 2) * 4 * (f32_ceil x * 10 ^ n) :=
    Nat.le_of_mul_le_mul_right hchain (by unfold F32_ONE; norm_num)
  generalize f32_ceil x * 10 ^ n = T at hcancel ⊢
  interval_cases n <;> norm_num at hcancel <;> omega

/-- C18 as stated fails on the code: at 40,000,002 Hz the rate is rounded to
40,000,000 by `float()`, the interval is 1 at the magnitude 10,000,000, the
second candidate `2 * 1 * 10,000,000` is below `sampling_rate / 2 = 20,000,001`
and two tick pairs are drawn (the second at a wrapped pixel offset): 5 lines,
2 labelled ticks per side. -/
theorem binary32_two_tick_pairs :
    normalise 10 scale_40M.spectrum_sampling_rate = Except.ok (F32_ONE, 10000000, 7) ∧
    f32_ceil F32_ONE = 1 ∧
    2 * 1 * 10000000 < scale_40M.spectrum_sampling_rate / 2 ∧
    scale_40M.draw_frequency_ticks 10 demo_rect = Except.ok [
      DrawOp.fill_rectangle ⟨120, 0, 1, 20⟩ Color.white,
      DrawOp.fill_rectangle ⟨57, 0, 1, 20⟩ Color.white,
      DrawOp.draw_string ⟨59, 0⟩ "10M",
      DrawOp.fill_rectangle ⟨183, 0, 1, 20⟩ Color.white,
      DrawOp.draw_string ⟨185, 0⟩ "10M",
      DrawOp.fill_rectangle ⟨100, 0, 1, 20⟩ Color.white,
      DrawOp.draw_string ⟨102, 0⟩ "20M",
      DrawOp.fill_rectangle ⟨140, 0, 1, 20⟩ Color.white,
      DrawOp.draw_string ⟨142, 0⟩ "20M"] ∧
    (List.filter is_line [
      DrawOp.fill_rectangle ⟨120, 0, 1, 20⟩ Color.white,
      DrawOp.fill_rectangle ⟨57, 0, 1, 20⟩ Color.white,
      DrawOp.draw_string ⟨59, 0⟩ "10M",
      DrawOp.fill_rectangle ⟨183, 0, 1, 20⟩ Color.white,
      DrawOp.draw_string ⟨185, 0⟩ "10M",
      DrawOp.fill_rectangle ⟨100, 0, 1, 20⟩ Color.white,
      DrawOp.draw_string ⟨102, 0⟩ "20M",
      DrawOp.fill_rectangle ⟨140, 0, 1, 20⟩ Color.white,
      DrawOp.draw_string ⟨142, 0⟩ "20M"]).length = 5 := by
  decide

theorem tick_pairs_lines (r : Rect) (p : Nat → Int) (label : Nat → String) (l : List Nat) :
    ((l.flatMap (fun i => tick_pair r (p i) (label i))).filter is_line).length =
        2 * l.length ∧
    ((l.flatMap (fun i => tick_pair r (p i) (label i))).filter
      (fun op => !is_line op)).length = 2 * l.length := by
  induction l with
  | nil => exact ⟨rfl, rfl⟩
  | cons a l ih =>
    obtain ⟨h1, h2⟩ := ih
    rw [List.flatMap_cons, List.filter_append, List.filter_append, List.length_append,
      List.length_append, h1, h2, List.length_cons]
    constructor
    · simp only [tick_pair, is_line, List.filter_cons, List.filter_nil, if_true,
        Bool.false_eq_true, if_false, List.length_cons, List.length_nil]
      omega
    · simp only [tick_pair, is_line, List.filter_cons, List.filter_nil, Bool.not_true,
        Bool.not_false, if_true, Bool.false_eq_true, if_false, List.length_cons,
        List.length_nil]
      omega

/-- C18, amended: on the binary32 arithmetic of the code, for every non-zero
32 bit sampling rate `5 * tick_interval * magnitude` is at least the rate, so
the third candidate `3 * tick_interval * magnitude` is not below
`sampling_rate / 2`: the body of the tick loop runs `K ≤ 2` times, and what is
drawn is the centre tick and `K` tick pairs, `1 + 2 * K ≤ 5` lines and
`2 * K ≤ 4` labels.  At 41 Hz the centre tick is drawn alone. -/
theorem tick_loop_at_most_twice (fuel : Nat) (fs : FrequencyScale) (r : Rect)
    (h0 : 0 < fs.spectrum_sampling_rate) (h32 : fs.spectrum_sampling_rate < 2 ^ 32)
    (hfuel : 10 ≤ fuel) (hfuel2 : fs.spectrum_sampling_rate / 2 < fuel) :
    (∃ (rough magnitude magnitude_n K : Nat) (ops : List DrawOp),
      normalise fuel fs.spectrum_sampling_rate = Except.ok (rough, magnitude, magnitude_n) ∧
      fs.spectrum_sampling_rate ≤ 5 * (f32_ceil rough * magnitude) ∧
      ¬ (3 * f32_ceil rough * magnitude < fs.spectrum_sampling_rate / 2) ∧
      K ≤ 2 ∧
      fs.draw_frequency_ticks fuel r = Except.ok ops ∧
      ops = center_tick r :: (List.range' 1 K).flatMap
        (fun i => tick_pair r (tick_pixels fs magnitude (i * f32_ceil rough))
          (tick_label magnitude_n (i * f32_ceil rough))) ∧
      (∀ i, 1 ≤ i → i ≤ K →
        (i * f32_ceil rough) * magnitude < fs.spectrum_sampling_rate / 2) ∧
      (ops.filter is_line).length = 1 + 2 * K ∧
      (ops.filter is_line).length ≤ 5 ∧
      (ops.filter (fun op => !is_line op)).length = 2 * K ∧
      (ops.filter (fun op => !is_line op)).length ≤ 4) ∧
    scale_41.draw_frequency_ticks 10 demo_rect = Except.ok [center_tick demo_rect] := by
  refine ⟨?_, by decide⟩
  obtain ⟨x, n, K, hnorm, _, _, _, hdraw, hall, _⟩ :=
    draw_frequency_ticks_spec fuel fs r h0 h32 hfuel hfuel2
  obtain ⟨x2, n2, hnorm2, hquarter⟩ :=
    normalise_quarter fuel fs.spectrum_sampling_rate h0 h32 hfuel
  rw [hnorm] at hnorm2
  simp only [Except.ok.injEq, Prod.mk.injEq] at hnorm2
  obtain ⟨hxx, _, hnn⟩ := hnorm2
  subst hxx hnn
  have hthird : ¬ (3 * f32_ceil x * 10 ^ n < fs.spectrum_sampling_rate / 2) := by
    have hassoc : 3 * f32_ceil x * 10 ^ n = 3 * (f32_ceil x * 10 ^ n) := by ring
    rw [hassoc]
    omega
  have hK2 : K ≤ 2 := by
    by_contra hK
    exact hthird (hall 3 (by omega) (by omega))
  obtain ⟨hlines, hlabels⟩ := tick_pairs_lines r
    (fun i => tick_pixels fs (10 ^ n) (i * f32_ceil x))
    (fun i => tick_label n (i * f32_ceil x)) (List.range' 1 K)
  rw [List.length_range'] at hlines hlabels
  have hcl : is_line (center_tick r) = true := rfl
  refine ⟨x, 10 ^ n, n, K, _, hnorm, hquarter, hthird, hK2, hdraw, rfl, hall, ?_, ?_, ?_, ?_⟩
  · rw [List.filter_cons, hcl, if_pos rfl, List.length_cons, hlines]
    omega
  · rw [List.filter_cons, hcl, if_pos rfl, List.length_cons, hlines]
    omega
  · rw [List.filter_cons, hcl]
    simp only [Bool.not_true, Bool.false_eq_true, if_false]
    exact hlabels
  · rw [List.filter_cons, hcl]
    simp only [Bool.not_true, Bool.false_eq_true, if_false]
    omega

/-- Witness of C18, amended, at 20 kHz: one tick pair, 3 lines and 2 labels. -/
theorem tick_loop_at_most_twice_witness :
    (∃ (rough magnitude magnitude_n K : Nat) (ops : List DrawOp),
      normalise 10001 scale_20k.spectrum_sampling_rate =
        Except.ok (rough, magnitude, magnitude_n) ∧
      scale_20k.spectrum_sampling_rate ≤ 5 * (f32_ceil rough * magnitude) ∧
      ¬ (3 * f32_ceil rough * magnitude < scale_20k.spectrum_sampling_rate / 2) ∧
      K ≤ 2 ∧
      scale_20k.draw_frequency_ticks 10001 demo_rect = Except.ok ops ∧
      ops = center_tick demo_rect :: (List.range' 1 K).flatMap
        (fun i => tick_pair demo_rect (tick_pixels scale_20k magnitude (i * f32_ceil rough))
          (tick_label magnitude_n (i * f32_ceil rough))) ∧
      (∀ i, 1 ≤ i → i ≤ K →
        (i * f32_ceil rough) * magnitude < scale_20k.spectrum_sampling_rate / 2) ∧
      (ops.filter is_line).length = 1 + 2 * K ∧
      (ops.filter is_line).length ≤ 5 ∧
      (ops.filter (fun op => !is_line op)).length = 2 * K ∧
      (ops.filter (fun op => !is_line op)).length ≤ 4) ∧
    scale_20k.draw_frequency_ticks 10001 demo_rect = Except.ok [
      DrawOp.fill_rectangle ⟨120, 0, 1, 20⟩ Color.white,
      DrawOp.fill_rectangle ⟨56, 0, 1, 20⟩ Color.white,
      DrawOp.draw_string ⟨58, 0⟩ "5k",
      DrawOp.fill_rectangle ⟨184, 0, 1, 20⟩ Color.white,
      DrawOp.draw_string ⟨186, 0⟩ "5k"] :=
  ⟨(tick_loop_at_most_twice 10001 scale_20k demo_rect (by decide) (by decide)
      (by decide) (by decide)).1, by decide⟩

/-! ## What a label denotes (C17) -/

theorem digit_value_digitChar (d : Nat) (hd : d < 10) :
    digit_value (Nat.digitChar d) = d ∧ Nat.digitChar d ≠ 'M' ∧ Nat.digitChar d ≠ 'k' := by
  interval_cases d <;> decide

theorem digits_value_append (cs : List Char) (c : Char) :
    digits_value (cs ++ [c]) = digits_value cs * 10 + digit_value c := by
  unfold digits_value
  rw [List.foldl_append]
  rfl

theorem toDigitsCore_spec : ∀ (fuel n : Nat) (ds : List Char), n < fuel →
    ∃ pre, Nat.toDigitsCore 10 fuel n ds = pre ++ ds ∧ digits_value pre = n ∧
      ∀ c ∈ pre, c ≠ 'M' ∧ c ≠ 'k' := by
  intro fuel
  induction fuel with
  | zero =>
    intro n ds h
    omega
  | succ fuel ih =>
    intro n ds hn
    obtain ⟨hv, hM, hk⟩ := digit_value_digitChar (n % 10) (Nat.mod_lt _ (by omega))
    unfold Nat.toDigitsCore
    by_cases h0 : n / 10 = 0
    · simp only [h0, if_true]
      refine ⟨[Nat.digitChar (n % 10)], rfl, ?_, ?_⟩
      · have := digits_value_append [] (Nat.digitChar (n % 10))
        simp only [List.nil_append] at this
        rw [this, hv]
        simp [digits_value]
        omega
      · intro c hc
        simp only [List.mem_singleton] at hc
        subst hc
        exact ⟨hM, hk⟩
    · simp only [h0, if_false]
      obtain ⟨pre, hpre, hval, hall⟩ := ih (n / 10) (Nat.digitChar (n % 10) :: ds) (by omega)
      refine ⟨pre ++ [Nat.digitChar (n % 10)], ?_, ?_, ?_⟩
      · rw [hpre]
        simp
      · rw [digits_value_append, hval, hv]
        omega
      · intro c hc
        rw [List.mem_append] at hc
        rcases hc with hc | hc
        · exact hall c hc
        · simp only [List.mem_singleton] at hc
          subst hc
          exact ⟨hM, hk⟩

theorem repr_digits (t : Nat) :
    digits_value (Nat.repr t).data = t ∧ ∀ c ∈ (Nat.repr t).data, c ≠ 'M' ∧ c ≠ 'k' := by
  obtain ⟨pre, hpre, hval, hall⟩ := toDigitsCore_spec (t + 1) t [] (by omega)
  have hdata : (Nat.repr t).data = pre := by
    show Nat.toDigitsCore 10 (t + 1) t [] = pre
    rw [hpre, List.append_nil]
  rw [hdata]
  exact ⟨hval, hall⟩

theorem label_value_plain (cs : List Char) (hall : ∀ c ∈ cs, c ≠ 'M' ∧ c ≠ 'k') :
    label_value (String.mk cs) = digits_value cs := by
  unfold label_value
  have hM : cs.getLast? ≠ some 'M' := by
    intro h
    exact (hall _ (List.mem_of_getLast?_eq_some h)).1 rfl
  have hk : cs.getLast? ≠ some 'k' := by
    intro h
    exact (hall _ (List.mem_of_getLast?_eq_some h)).2 rfl
  simp only [hM, hk, if_false]

theorem label_value_M (cs : List Char) :
    label_value (String.mk (cs ++ ['M'])) = digits_value cs * 10 ^ 6 := by
  unfold label_value
  simp

theorem label_value_k (cs : List Char) :
    label_value (String.mk (cs ++ ['k'])) = digits_value cs * 10 ^ 3 := by
  unfold label_value
  simp

theorem pad_digits (cs : List Char) (hall : ∀ c ∈ cs, c ≠ 'M' ∧ c ≠ 'k') (j : Nat) :
    digits_value (cs ++ List.replicate j '0') = digits_value cs * 10 ^ j ∧
      ∀ c ∈ cs ++ List.replicate j '0', c ≠ 'M' ∧ c ≠ 'k' := by
  induction j with
  | zero => simpa using hall
  | succ j ih =>
    obtain ⟨h1, h2⟩ := ih
    have hsplit : cs ++ List.replicate (j + 1) '0' = (cs ++ List.replicate j '0') ++ ['0'] := by
      rw [List.replicate_succ', List.append_assoc]
    rw [hsplit]
    refine ⟨?_, ?_⟩
    · rw [digits_value_append, h1, pow_succ]
      have : digit_value '0' = 0 := by decide
      rw [this]
      ring
    · intro c hc
      rw [List.mem_append] at hc
      rcases hc with hc | hc
      · exact h2 c hc
      · simp only [List.mem_singleton] at hc
        subst hc
        decide

theorem tick_label_value (m t : Nat) :
    label_value (tick_label m t) =
      t * 10 ^ (m % 3) * (if 6 ≤ m then 10 ^ 6 else if 3 ≤ m then 10 ^ 3 else 1) := by
  obtain ⟨hval, hall⟩ := repr_digits t
  obtain ⟨hpad, hpadall⟩ := pad_digits (Nat.repr t).data hall (m % 3)
  rw [hval] at hpad
  have hdata : tick_label m t = String.mk ((Nat.repr t).data ++ List.replicate (m % 3) '0' ++
      (if 6 ≤ m then ['M'] else if 3 ≤ m then ['k'] else [])) := by
    rw [tick_label_eq_words]
    unfold label_of_words
    apply String.ext
    simp only [String.data_append]
    by_cases h6 : 6 ≤ m
    · simp [h6]
    · by_cases h3 : 3 ≤ m
      · have h36 : 3 ≤ m ∧ m < 6 := by omega
        simp [h6, h3, h36]
      · have h36 : ¬ (3 ≤ m ∧ m < 6) := by omega
        simp [h6, h3, h36]
  rw [hdata]
  by_cases h6 : 6 ≤ m
  · simp only [h6, if_true]
    rw [label_value_M, hpad]
  · by_cases h3 : 3 ≤ m
    · simp only [h6, h3, if_true, if_false]
      rw [label_value_k, hpad]
    · simp only [h6, h3, if_false, List.append_nil]
      rw [label_value_plain _ hpadall, hpad]
      ring

theorem rough_top_below : rough_bound_from (f32_div (f32_of_u32 3999999871) 4) 8 < 10 * F32_ONE := by
  decide

theorem rough_at_4G : f32_div (f32_of_u32 3999999872) 4 = 10 ^ 9 * F32_ONE := by decide

theorem f32_div_ten_pow (j : Nat) (hj : j ≤ 8) :
    f32_div (10 ^ (j + 1) * F32_ONE) 10 = 10 ^ j * F32_ONE := by
  interval_cases j <;> decide

theorem normalise_loop_counter_le (b : Nat) (hb : rough_bound_from b 8 < 10 * F32_ONE) :
    ∀ (fuel x mag k : Nat) (v : Nat × Nat × Nat), k ≤ 8 → x ≤ rough_bound_from b k →
      normalise_loop fuel x mag k = Except.ok v → v.2.2 ≤ 8 := by
  intro fuel
  induction fuel with
  | zero =>
    intro x mag k v _ _ h
    unfold normalise_loop at h
    simp at h
  | succ fuel ih =>
    intro x mag k v hk hx h
    unfold normalise_loop at h
    by_cases hten : 10 * F32_ONE ≤ x
    · rw [if_pos hten] at h
      have hk7 : k ≤ 7 := by
        by_contra h8
        have h8' : k = 8 := by omega
        subst h8'
        omega
      have hcnt : (k + 1) % 2 ^ 32 = k + 1 := Nat.mod_eq_of_lt (by omega)
      rw [hcnt] at h
      exact ih (f32_div x 10) _ (k + 1) v (by omega) (f32_div_mono 10 hx) h
    · rw [if_neg hten] at h
      simp only [Except.ok.injEq] at h
      rw [← h]
      exact hk

theorem normalise_loop_counter_nine :
    ∀ (fuel x mag k : Nat) (v : Nat × Nat × Nat), k ≤ 9 → 10 ^ (9 - k) * F32_ONE ≤ x →
      x ≤ rough_bound k → normalise_loop fuel x mag k = Except.ok v → v.2.2 = 9 := by
  intro fuel
  induction fuel with
  | zero =>
    intro x mag k v _ _ _ h
    unfold normalise_loop at h
    simp at h
  | succ fuel ih =>
    intro x mag k v hk hlow hup h
    unfold normalise_loop at h
    by_cases h9 : k = 9
    · subst h9
      have := rough_bound_nine
      rw [if_neg (by omega)] at h
      simp only [Except.ok.injEq] at h
      rw [← h]
    · have hk8 : k ≤ 8 := by omega
      obtain ⟨j, hj⟩ : ∃ j, 9 - k = j + 1 := ⟨8 - k, by omega⟩
      rw [hj] at hlow
      have hten : 10 * F32_ONE ≤ x := by
        have h1 : 10 ^ 1 ≤ 10 ^ (j + 1) := Nat.pow_le_pow_right (by omega) (by omega)
        have h2 : 10 ^ 1 * F32_ONE ≤ 10 ^ (j + 1) * F32_ONE := Nat.mul_le_mul_right _ h1
        omega
      rw [if_pos hten] at h
      have hcnt : (k + 1) % 2 ^ 32 = k + 1 := Nat.mod_eq_of_lt (by omega)
      rw [hcnt] at h
      have hlow2 : 10 ^ (9 - (k + 1)) * F32_ONE ≤ f32_div x 10 := by
        have hj2 : 9 - (k + 1) = j := by omega
        rw [hj2, ← f32_div_ten_pow j (by omega)]
        exact f32_div_mono 10 hlow
      exact ih (f32_div x 10) _ (k + 1) v (by omega) hlow2 (f32_div_mono 10 hup) h

/-- C17 as stated fails: 3,999,999,872 Hz is below 4,000,000,000 but binary32
rounds it to 4,000,000,000, so that `m = 9`; the tick at
`1 * 1,000,000,000` Hz is labelled `1M`, which reads 1,000,000. -/
theorem label_below_4G_not_exact :
    scale_4G.spectrum_sampling_rate < 4000000000 ∧
    normalise 10 scale_4G.spectrum_sampling_rate = Except.ok (F32_ONE, 1000000000, 9) ∧
    scale_4G.draw_frequency_ticks 10 demo_rect = Except.ok [
      DrawOp.fill_rectangle ⟨120, 0, 1, 20⟩ Color.white,
      DrawOp.fill_rectangle ⟨120, 0, 1, 20⟩ Color.white,
      DrawOp.draw_string ⟨122, 0⟩ "1M",
      DrawOp.fill_rectangle ⟨120, 0, 1, 20⟩ Color.white,
      DrawOp.draw_string ⟨122, 0⟩ "1M"] ∧
    label_value "1M" = 1000000 ∧
    label_value "1M" ≠ 1 * 1000000000 := by
  decide

/-- C17, amended: for every sampling rate whose magnitude counter `m` is at
most 8, which are the rates below 3,999,999,872, each tick label read as a
decimal number with `k` for `10 ^ 3` and `M` for `10 ^ 6` is the frequency
`tick_offset * 10 ^ m` of the tick; for `m = 9`, the rates from 3,999,999,872
on, the label reads a thousandth of it. -/
theorem label_denotes_frequency (fuel : Nat) (fs : FrequencyScale) (r : Rect)
    (h0 : 0 < fs.spectrum_sampling_rate) (h32 : fs.spectrum_sampling_rate < 2 ^ 32)
    (hfuel : 10 ≤ fuel) (hfuel2 : fs.spectrum_sampling_rate / 2 < fuel) :
    ∃ rough m K,
      normalise fuel fs.spectrum_sampling_rate = Except.ok (rough, 10 ^ m, m) ∧
      fs.draw_frequency_ticks fuel r =
        Except.ok (center_tick r :: (List.range' 1 K).flatMap
          (fun i => tick_pair r (tick_pixels fs (10 ^ m) (i * f32_ceil rough))
            (tick_label m (i * f32_ceil rough)))) ∧
      (m ≤ 8 → ∀ t, label_value (tick_label m t) = t * 10 ^ m) ∧
      (m = 9 → ∀ t, label_value (tick_label m t) * 1000 = t * 10 ^ m) ∧
      (m ≤ 8 ↔ fs.spectrum_sampling_rate < 3999999872) ∧
      (m = 9 ↔ 3999999872 ≤ fs.spectrum_sampling_rate) := by
  obtain ⟨x, n, K, hnorm, hn, _, _, hdraw, _, _⟩ :=
    draw_frequency_ticks_spec fuel fs r h0 h32 hfuel hfuel2
  have hloop : normalise_loop fuel (f32_div (f32_of_u32 fs.spectrum_sampling_rate) 4) 1 0 =
      Except.ok (x, 10 ^ n, n) := hnorm
  have hbelow : fs.spectrum_sampling_rate < 3999999872 → n ≤ 8 := by
    intro hlt
    exact normalise_loop_counter_le _ rough_top_below fuel _ 1 0 _ (by omega)
      (f32_div_mono 4 (f32_of_u32_mono (by omega))) hloop
  have habove : 3999999872 ≤ fs.spectrum_sampling_rate → n = 9 := by
    intro hge
    have hlow : 10 ^ (9 - 0) * F32_ONE ≤ f32_div (f32_of_u32 fs.spectrum_sampling_rate) 4 := by
      rw [Nat.sub_zero, ← rough_at_4G]
      exact f32_div_mono 4 (f32_of_u32_mono hge)
    have hup : f32_div (f32_of_u32 fs.spectrum_sampling_rate) 4 ≤ rough_bound 0 := by
      rw [← f32_quarter_top]
      exact f32_div_mono 4 (f32_of_u32_mono (by omega))
    exact normalise_loop_counter_nine fuel _ 1 0 _ (by omega) hlow hup hloop
  refine ⟨x, n, K, hnorm, hdraw, ?_, ?_, ?_, ?_⟩
  · intro h8 t
    rw [tick_label_value]
    interval_cases n <;> norm_num <;> ring
  · intro h9 t
    subst h9
    rw [tick_label_value]
    norm_num
    ring
  · constructor
    · intro h8
      by_contra hge
      have := habove (by omega)
      omega
    · exact hbelow
  · constructor
    · intro h9
      by_contra hlt
      have := hbelow (by omega)
      omega
    · exact habove

/-- Witness of C17, amended, at 20 kHz: `m = 3` and the label `5k` reads 5000. -/
theorem label_denotes_frequency_witness :
    (∃ rough m K,
      normalise 10001 scale_20k.spectrum_sampling_rate = Except.ok (rough, 10 ^ m, m) ∧
      scale_20k.draw_frequency_ticks 10001 demo_rect =
        Except.ok (center_tick demo_rect :: (List.range' 1 K).flatMap
          (fun i => tick_pair demo_rect (tick_pixels scale_20k (10 ^ m) (i * f32_ceil rough))
            (tick_label m (i * f32_ceil rough)))) ∧
      (m ≤ 8 → ∀ t, label_value (tick_label m t) = t * 10 ^ m) ∧
      (m = 9 → ∀ t, label_value (tick_label m t) * 1000 = t * 10 ^ m) ∧
      (m ≤ 8 ↔ scale_20k.spectrum_sampling_rate < 3999999872) ∧
      (m = 9 ↔ 3999999872 ≤ scale_20k.spectrum_sampling_rate)) ∧
    label_value "5k" = 5 * 10 ^ 3 :=
  ⟨label_denotes_frequency 10001 scale_20k demo_rect (by decide) (by decide) (by decide)
    (by decide), by decide⟩

end Spectrum
